import Mathlib

/-!
# remirror: a caching mirror proxy

A shallow embedding of `main.go`: the cacheability predicate `should_cache`,
the upstream dispatch, the proxy pipeline over an explicit file store, the two
mirror-list handlers and the error-to-status mapping of the HTTP handler.

Go strings and byte streams are byte sequences; they are modelled as
`List Char`, one `Char` per byte. Everything the handler obtains from its
environment (the DNS exchange, the upstream HTTP client, the outcome of the
file-system calls whose error the source inspects) is a field of `Env`; the
handler returns the response it wrote, the store it leaves and the requests it
issued.
-/

namespace Remirror

/-- A Go string: a sequence of bytes. -/
abbrev GoString := List Char

/-! ## The `strings` package -/

/-- Go `strings.HasSuffix`: `len(s) >= len(suffix) && s[len(s)-len(suffix):] == suffix`. -/
def HasSuffix (s suffix : GoString) : Bool :=
  decide (suffix.length ≤ s.length) && (s.drop (s.length - suffix.length) == suffix)

/-- Go `strings.HasPrefix`: `len(s) >= len(p) && s[:len(p)] == p`. -/
def HasPrefix (s p : GoString) : Bool :=
  decide (p.length ≤ s.length) && (s.take p.length == p)

/-- Left-to-right search behind `strings.Index`: `i` is the offset of the text still to scan. -/
def indexFrom (substr : GoString) : GoString → Nat → Int
  | [], i => if substr = [] then (i : Int) else -1
  | c :: t, i => if HasPrefix (c :: t) substr then (i : Int) else indexFrom substr t (i + 1)

/-- Go `strings.Index`: the offset of the first instance of `substr` in `s`, or `-1`. -/
def Index (s substr : GoString) : Int := indexFrom substr s 0

/-- Go `strings.Contains`: `Index(s, substr) >= 0`. -/
def Contains (s substr : GoString) : Bool := decide (0 ≤ Index s substr)

/-- Go `strconv.Itoa`: the decimal text of an integer. -/
def Itoa (i : Int) : GoString :=
  if i < 0 then '-' :: Nat.toDigits 10 i.natAbs else Nat.toDigits 10 i.toNat

/-! ## `should_cache` (main.go, lines 38-50) -/

/-- The cacheability predicate of main.go. -/
def should_cache (path : GoString) : Bool :=
  if HasSuffix path ".pkg.tar.xz".toList then true
  else if HasSuffix path ".rpm".toList then true
  else if Contains path "/repodata/".toList &&
      (HasSuffix path ".gz".toList || HasSuffix path ".bz2".toList ||
        HasSuffix path ".xz".toList) then true
  else false

/-! ## `path.Clean` (Go standard library, called at main.go line 103)

The output buffer `out` of the library routine is held reversed: its head is
the byte written last and its length is `out.w`. The rest of the input,
`path[r:]`, is the list still to read. -/

/-- The backtrack of a `..` element: `out.w--`, then `out.w--` again while
`out.w > dotdot && out.index(out.w) != '/'`. -/
def cleanBacktrack (dotdot : Nat) : List Char → List Char
  | [] => []
  | c :: t => if dotdot < t.length ∧ c ≠ '/' then cleanBacktrack dotdot t else t

/-- The main loop `for r < n` of `path.Clean`. Every round reads at least one
byte, so `fuel` rounds suffice for an input of `fuel` bytes; `none` is a loop
cut short by its fuel. -/
def cleanLoop (rooted : Bool) : Nat → List Char → List Char → Nat → Option (List Char)
  | _, [], out, _ => some out
  | 0, _ :: _, _, _ => none
  | fuel + 1, c :: t, out, dotdot =>
    if c = '/' then
      -- empty path element
      cleanLoop rooted fuel t out dotdot
    else if c = '.' ∧ (t = [] ∨ t.head? = some '/') then
      -- . element
      cleanLoop rooted fuel t out dotdot
    else if c = '.' ∧ t.head? = some '.' ∧ (t.tail = [] ∨ t.tail.head? = some '/') then
      -- .. element: remove to last /
      if dotdot < out.length then
        cleanLoop rooted fuel t.tail (cleanBacktrack dotdot out) dotdot
      else if rooted = false then
        let out1 := if 0 < out.length then '/' :: out else out
        let out2 := '.' :: '.' :: out1
        cleanLoop rooted fuel t.tail out2 out2.length
      else
        cleanLoop rooted fuel t.tail out dotdot
    else
      -- real path element: add slash if needed, copy element
      let out1 :=
        if (rooted = true ∧ out.length ≠ 1) ∨ (rooted = false ∧ out.length ≠ 0) then '/' :: out
        else out
      let element := (c :: t).takeWhile (fun x => x ≠ '/')
      cleanLoop rooted fuel ((c :: t).dropWhile (fun x => x ≠ '/')) (element.reverse ++ out1) dotdot

/-- Go `path.Clean`: the shortest path name equivalent to `path` by purely lexical processing. -/
def Clean (path : GoString) : GoString :=
  if path = [] then ['.']
  else
    let rooted : Bool := path.head? == some '/'
    let out0 : List Char := if rooted then ['/'] else []
    let r0 : List Char := if rooted then path.tail else path
    let dotdot0 : Nat := if rooted then 1 else 0
    match cleanLoop rooted path.length r0 out0 dotdot0 with
    | some out => if out.length = 0 then ['.'] else out.reverse
    | none => ['.']

/-! ## HTTP values -/

/-- An HTTP header set in the order of its `Add` calls: `(key, value)` pairs. -/
abbrev Header := List (GoString × GoString)

/-- Go `Header.Set`: replace whatever values the key has by the single value `v`. -/
def Header.Set (h : Header) (k v : GoString) : Header :=
  h.filter (fun kv => kv.1 ≠ k) ++ [(k, v)]

/-- Go `Header.Add`: append the value `v` to the values of the key. -/
def Header.Add (h : Header) (k v : GoString) : Header :=
  h ++ [(k, v)]

/-- Go `url.Values.Get`: the first value of the key, or the empty string. -/
def Values.Get (form : List (GoString × GoString)) (k : GoString) : GoString :=
  match form.find? (fun kv => kv.1 = k) with
  | some kv => kv.2
  | none => []

/-- The inbound request `r`. `Form` is what `r.ParseForm()` yields: the parsed
values or its error. -/
structure Request where
  Method : GoString
  Host : GoString
  RequestURI : GoString
  Path : GoString
  Header : Header
  Form : Except GoString (List (GoString × GoString))

/-- A request the handler issues upstream. -/
structure OutRequest where
  Method : GoString
  URL : GoString
  Header : Header
deriving DecidableEq

/-- An upstream response as the handler sees it. `Body` are the bytes the
handler obtains from `resp.Body` (by `io.Copy` or `ioutil.ReadAll`) and
`BodyErr` is the error that ended the transfer, if any. -/
structure UpstreamResponse where
  StatusCode : Int
  ContentLength : Int
  Header : Header
  Body : GoString
  BodyErr : Option GoString

/-- An `A` record of the DNS library: the printed owner name, the TTL, the
printed class and the printed address. -/
structure ARecord where
  Name : GoString
  Ttl : Nat
  Class : GoString
  A : GoString
deriving DecidableEq

/-- The method `(*dns.A).String` of the DNS library: the header of the record,
that is name, TTL, class and type each followed by a tab, and then the address. -/
def ARecord.String (a : ARecord) : GoString :=
  a.Name ++ ['\t'] ++ Itoa a.Ttl ++ ['\t'] ++ a.Class ++ ['\t'] ++ "A".toList ++ ['\t'] ++ a.A

/-- A resource record of a DNS answer: an `A` record or a record of another type. -/
inductive RR where
  | A (a : ARecord)
  | other
deriving DecidableEq

/-- The error value a handler returns: an `HTTPError` or any other `error`. -/
inductive GoError where
  | http (code : Int)
  | other (msg : GoString)
deriving DecidableEq

/-- The `http.ResponseWriter`: the header map `w.Header()`, the status line
once written together with the header set sent with it, and the body bytes
written. -/
structure ResponseWriter where
  header : Header
  status : Option Int
  sent : Header
  body : GoString

/-- A response writer nothing was written to. -/
def ResponseWriter.new : ResponseWriter := ⟨[], none, [], []⟩

/-- The call `w.Header().Set(k, v)`. -/
def ResponseWriter.SetHeader (w : ResponseWriter) (k v : GoString) : ResponseWriter :=
  { w with header := w.header.Set k v }

/-- The call `w.Header().Add(k, v)`. -/
def ResponseWriter.AddHeader (w : ResponseWriter) (k v : GoString) : ResponseWriter :=
  { w with header := w.header.Add k v }

/-- The call `w.WriteHeader(code)`: the first call sends the status line and the
header map as it is then; a later call changes nothing. -/
def ResponseWriter.WriteHeader (w : ResponseWriter) (code : Int) : ResponseWriter :=
  match w.status with
  | some _ => w
  | none => { w with status := some code, sent := w.header }

/-- The call `w.Write(b)`: sends status 200 first when no status was written. -/
def ResponseWriter.Write (w : ResponseWriter) (b : GoString) : ResponseWriter :=
  let w1 := w.WriteHeader 200
  { w1 with body := w1.body ++ b }

/-- An `io.Copy` of `b` into the writer: no `Write` call when there is nothing to copy. -/
def ResponseWriter.Copy (w : ResponseWriter) (b : GoString) : ResponseWriter :=
  if b = [] then w else w.Write b

/-- What the server does when the handler returns: status 200 when none was written. -/
def ResponseWriter.finish (w : ResponseWriter) : ResponseWriter :=
  w.WriteHeader 200

/-- Go `http.Error`: two header fields, the status line, the message and a newline. -/
def httpError (w : ResponseWriter) (error : GoString) (code : Int) : ResponseWriter :=
  let w1 := w.SetHeader "Content-Type".toList "text/plain; charset=utf-8".toList
  let w2 := w1.SetHeader "X-Content-Type-Options".toList "nosniff".toList
  (w2.WriteHeader code).Write (error ++ ['\n'])

/-! ## The file store -/

/-- The files under the data root: a map from file path to content. The call
`os.Stat` succeeds on the paths that hold a file. -/
abbrev Store := GoString → Option GoString

/-- Create or overwrite the file `p` with content `b`. -/
def Store.write (s : Store) (p b : GoString) : Store :=
  fun q => if q = p then some b else s q

/-- Go `os.Remove`: unlink the file `p`. -/
def Store.remove (s : Store) (p : GoString) : Store :=
  fun q => if q = p then none else s q

/-- Go `os.Rename` when it succeeds: the content of `old` is moved to `new`. -/
def Store.rename (s : Store) (old new : GoString) : Store :=
  match s old with
  | none => s
  | some b => (s.remove old).write new b

/-! ## The environment of one request -/

/-- What the handler obtains from outside while it serves one request. -/
structure Env where
  /-- Go `http.StatusText`. -/
  StatusText : Int → GoString
  /-- The `%#v` rendering of a string by `fmt`. -/
  Quote : GoString → GoString
  /-- The call `dns_client.Exchange`: the question name and the server address give the answer section or an error. -/
  Exchange : GoString → GoString → Except GoString (List RR)
  /-- The error of `http.NewRequest` for a URL, if any. -/
  NewRequest : GoString → Option GoString
  /-- The call `http_client.Do`. -/
  Do : OutRequest → Except GoString UpstreamResponse
  /-- The error of `os.Open` on a published file, if any. -/
  Open : GoString → Option GoString
  /-- The random suffix `ioutil.TempFile` appends to the name it creates, or its error. -/
  TempFile : Except GoString GoString
  /-- The error of `os.Rename`, if any. -/
  Rename : Option GoString

/-- The process-wide flags of `main`. -/
structure Config where
  listen : GoString
  dns_server : GoString
  data : GoString
  host : GoString

/-- What serving one request leaves behind: the response written, the store,
the upstream requests and DNS questions issued, and the error returned by the
inner function of the handler. -/
structure Outcome where
  w : ResponseWriter
  store : Store
  requests : List OutRequest
  dns : List (GoString × GoString)
  err : Option GoError

/-! ## `HTTPError` (main.go, lines 29-36) -/

/-- The method `HTTPError.Code`. -/
def HTTPError.Code (e : Int) : Int := e

/-- The method `HTTPError.Error`: `fmt.Sprintf("HTTP %d %s", e, http.StatusText(e.Code()))`. -/
def HTTPError.Error (env : Env) (e : Int) : GoString :=
  "HTTP ".toList ++ Itoa e ++ " ".toList ++ env.StatusText (HTTPError.Code e)

/-! ## `resolve` (main.go, lines 299-313) -/

/-- The loop over `dnsr.Answer` (main.go, lines 306-311): the first `A` record,
returned as `a.String()`. -/
def firstA : List RR → Option GoString
  | [] => none
  | RR.A a :: _ => some a.String
  | RR.other :: rest => firstA rest

/-- The function `resolve` of main.go: one `A` question for `host.` to `dns_server:53`. -/
def resolve (env : Env) (host dns_server : GoString) : Except GoString GoString :=
  match env.Exchange (host ++ ".".toList) (dns_server ++ ":53".toList) with
  | .error e => .error e
  | .ok answer =>
    match firstA answer with
    | some a => .ok a
    | none =>
      .error ("Server not found (".toList ++ env.Quote host ++ ", queried DNS server ".toList ++
        env.Quote dns_server ++ ")".toList)

/-! ## `centos_mirrorlist` (main.go, lines 212-237) -/

/-- The CentOS mirror-list handler. -/
def centos_mirrorlist (fs : Store) (w : ResponseWriter) (r : Request)
    (_dns_server host : GoString) : Outcome :=
  match r.Form with
  | .error e => ⟨w, fs, [], [], some (.other e)⟩
  | .ok form =>
    let release := Values.Get form "release".toList
    let repo := Values.Get form "repo".toList
    let arch := Values.Get form "arch".toList
    let release := if release = "7".toList then "7.2.1511".toList else release
    let w1 := w.SetHeader "Content-Type".toList "text/plain".toList
    let us := "http://".toList ++ host ++ "/centos/".toList ++ release ++ "/".toList ++ repo ++
      "/".toList ++ arch ++ "/".toList
    ⟨w1.Write us, fs, [], [], none⟩

/-! ## `fedora_mirrorlist` (main.go, lines 239-297) -/

/-- The opening delimiter the Fedora handler searches for. -/
def resourcesOpen : GoString := "<resources maxconnections=\"1\">".toList

/-- The closing delimiter the Fedora handler searches for. -/
def resourcesClose : GoString := "</resources>".toList

/-- The `url` element the Fedora handler splices in (main.go, line 281). -/
def fedoraUrl (host arch : GoString) : GoString :=
  "<url protocol=\"http\" type=\"http\" location=\"US\" preference=\"100\">http://".toList ++ host ++
    "/fedora-epel/7/".toList ++ arch ++ "/repodata/repomd.xml</url>".toList

/-- The body rewrite of the Fedora handler (main.go, lines 274-283): with
`start` and `end` the offsets of the two delimiters, the body becomes
`s[:start] + us + s[end:]` when both are found and `repo` is `epel-7`. -/
def fedoraSplice (s repo arch host : GoString) : GoString :=
  let start := Index s resourcesOpen
  let stop := Index s resourcesClose
  if start ≠ -1 ∧ stop ≠ -1 ∧ repo = "epel-7".toList then
    let us := fedoraUrl host arch
    s.take start.toNat ++ us ++ s.drop stop.toNat
  else s

/-- The Fedora mirror-list handler. The response header is written as the
source means it: `Content-Length` is the decimal length of the body and the
status is 200. -/
def fedora_mirrorlist (env : Env) (fs : Store) (w : ResponseWriter) (r : Request)
    (dns_server host : GoString) : Outcome :=
  match r.Form with
  | .error e => ⟨w, fs, [], [], some (.other e)⟩
  | .ok form =>
    let repo := Values.Get form "repo".toList
    let arch := Values.Get form "arch".toList
    let upstream := "mirrors.fedoraproject.org".toList
    let question := [(upstream ++ ".".toList, dns_server ++ ":53".toList)]
    match resolve env upstream dns_server with
    | .error e => ⟨w, fs, [], question, some (.other e)⟩
    | .ok addr =>
      let url := "http://".toList ++ addr ++ r.RequestURI
      match env.NewRequest url with
      | some e => ⟨w, fs, [], question, some (.other e)⟩
      | none =>
        let req : OutRequest := ⟨"GET".toList, url, Header.Set [] "Host".toList upstream⟩
        match env.Do req with
        | .error e => ⟨w, fs, [req], question, some (.other e)⟩
        | .ok resp =>
          if resp.StatusCode ≠ 200 then
            ⟨w, fs, [req], question, some (.http resp.StatusCode)⟩
          else
            match resp.BodyErr with
            | some e => ⟨w, fs, [req], question, some (.other e)⟩
            | none =>
              let s := fedoraSplice resp.Body repo arch host
              let w1 := w.SetHeader "Content-Length".toList (Itoa s.length)
              let w2 := w1.WriteHeader 200
              ⟨w2.Write s, fs, [req], question, none⟩

/-! ## The proxy pipeline (main.go, lines 82-195) -/

/-- The upstream guessed from the URL path (main.go, lines 83-93); empty when no prefix matches. -/
def guessUpstream (path : GoString) : GoString :=
  if HasPrefix path "/archlinux/".toList then "https://mirrors.xmission.com".toList
  else if HasPrefix path "/centos/".toList then "https://mirrors.xmission.com".toList
  else if HasPrefix path "/fedora/".toList then "https://mirrors.xmission.com".toList
  else if HasPrefix path "/fedora-epel/".toList then "https://mirrors.xmission.com".toList
  else []

/-- The variable `local_path` (main.go, lines 100-103): empty unless the path is cacheable. -/
def localPath (data path : GoString) : GoString :=
  if should_cache path then data ++ Clean path else []

/-- The name of the file `ioutil.TempFile(data, "remirror_tmp_")` creates for
the suffix it draws: the directory, a separator, the pattern and the suffix. -/
def tmpPath (data suffix : GoString) : GoString :=
  data ++ "/".toList ++ "remirror_tmp_".toList ++ suffix

/-- The response head of a proxied answer (main.go, lines 162-172): the upstream
header fields, then `Server` and `Content-Length` overridden, then the status. -/
def proxyHead (w : ResponseWriter) (resp : UpstreamResponse) : ResponseWriter :=
  let w1 := resp.Header.foldl (fun acc kv => acc.AddHeader kv.1 kv.2) w
  let w2 := w1.SetHeader "Server".toList "remirror".toList
  let w3 := w2.SetHeader "Content-Length".toList (Itoa resp.ContentLength)
  w3.WriteHeader resp.StatusCode

/-- The tail of the proxy pipeline (main.go, lines 162-195) with the store as
it is once the temporary file, if any, exists: `tmp_path` is empty when there is
none. The deferred `os.Remove(tmp_path)` runs on every way out. The call
`os.MkdirAll` does not show in a store of files and the source drops its
result; a directory that cannot be made shows as the error of `os.Rename`. -/
def proxyCopy (env : Env) (fs : Store) (w : ResponseWriter) (resp : UpstreamResponse)
    (req : OutRequest) (local_path tmp_path : GoString) : Outcome :=
  let w1 := (proxyHead w resp).Copy resp.Body
  -- the bytes copied went to the temporary file as well
  let fs1 : Store := if tmp_path ≠ [] then fs.write tmp_path resp.Body else fs
  let n : Int := resp.Body.length
  let cleanup (s : Store) : Store := if tmp_path ≠ [] then s.remove tmp_path else s
  match resp.BodyErr with
  | some _ => ⟨w1, cleanup fs1, [req], [], none⟩
  | none =>
    if n ≠ resp.ContentLength then ⟨w1, cleanup fs1, [req], [], none⟩
    else if tmp_path ≠ [] then
      match env.Rename with
      | some _ => ⟨w1, cleanup fs1, [req], [], none⟩
      | none => ⟨w1, cleanup (fs1.rename tmp_path local_path), [req], [], none⟩
    else ⟨w1, cleanup fs1, [req], [], none⟩

/-- The proxy pipeline for a request that is not a mirror-list request. -/
def proxy (env : Env) (fs : Store) (w : ResponseWriter) (r : Request) (data : GoString) :
    Outcome :=
  let upstream := guessUpstream r.Path
  if upstream = [] then ⟨w, fs, [], [], some (.http 404)⟩
  else
    let local_path := localPath data r.Path
    match (if should_cache r.Path then fs local_path else none) with
    | some content =>
      -- os.Stat succeeded: serve the published file
      match env.Open local_path with
      | some e => ⟨w, fs, [], [], some (.other e)⟩
      | none =>
        let w1 := w.SetHeader "Content-Length".toList (Itoa content.length)
        let w2 := w1.SetHeader "Server".toList "remirror".toList
        ⟨w2.Copy content, fs, [], [], none⟩
    | none =>
      let url := upstream ++ r.RequestURI
      match env.NewRequest url with
      | some e => ⟨w, fs, [], [], some (.other e)⟩
      | none =>
        let req : OutRequest :=
          ⟨"GET".toList, url, r.Header.filter (fun kv => kv.1 ≠ "Host".toList)⟩
        match env.Do req with
        | .error e => ⟨w, fs, [req], [], some (.other e)⟩
        | .ok resp =>
          if resp.StatusCode = 200 ∧ local_path ≠ [] then
            match env.TempFile with
            | .error e => ⟨w, fs, [req], [], some (.other e)⟩
            | .ok suffix =>
              let tmp_path := tmpPath data suffix
              -- the file is created with O_EXCL: an existing name is an error
              if (fs tmp_path).isSome then
                ⟨w, fs, [req], [], some (.other "file exists".toList)⟩
              else
                proxyCopy env (fs.write tmp_path []) w resp req local_path tmp_path
          else
            proxyCopy env fs w resp req local_path []

/-! ## The HTTP handler (main.go, lines 68-206) -/

/-- The handler registered for every path: dispatch on the `Host` header, then
the mapping of the returned error to a status (main.go, lines 198-205). -/
def ServeHTTP (cfg : Config) (env : Env) (fs : Store) (r : Request) : Outcome :=
  let w := ResponseWriter.new
  let o : Outcome :=
    if r.Host = "mirrors.fedoraproject.org".toList then
      fedora_mirrorlist env fs w r cfg.dns_server cfg.host
    else if r.Host = "mirrorlist.centos.org".toList then
      centos_mirrorlist fs w r cfg.dns_server cfg.host
    else
      proxy env fs w r cfg.data
  let w1 :=
    match o.err with
    | some (.http code) => httpError o.w (HTTPError.Error env code) (HTTPError.Code code)
    | some (.other msg) => httpError o.w msg 500
    | none => o.w
  { o with w := w1.finish }



/-! ## Conditions and sample inputs used in the statements -/

/-- An ASCII control byte, as `net/url` tests it: below `0x20` or `0x7f`. -/
def isControl (c : Char) : Bool :=
  decide (c.toNat < 32) || decide (c.toNat = 127)

/-- The environment follows `net/url`: a URL with an ASCII control byte does
not parse, so `http.NewRequest` returns an error for it. -/
def RejectsControl (env : Env) : Prop :=
  ∀ url : GoString, (∃ c ∈ url, isControl c = true) → (env.NewRequest url).isSome = true

/-- A request is for the proxy pipeline: its `Host` is neither mirror-list host. -/
def Proxied (r : Request) : Prop :=
  r.Host ≠ "mirrors.fedoraproject.org".toList ∧ r.Host ≠ "mirrorlist.centos.org".toList

/-- The upstream request the proxy pipeline builds for `r` (main.go, lines 125-136). -/
def upstreamRequest (r : Request) : OutRequest :=
  ⟨"GET".toList, guessUpstream r.Path ++ r.RequestURI,
    r.Header.filter (fun kv => kv.1 ≠ "Host".toList)⟩

/-- A sample configuration: the default flags with the host name `p`. -/
def sampleConfig : Config :=
  ⟨":80".toList, "8.8.8.8".toList, "/var/remirror".toList, "p".toList⟩

/-- A sample environment: the DNS server answers with an `A` record, a URL is
refused exactly when it holds a control byte, every other call succeeds, and
upstream answers with status `code`, declared length `len` and body `body`. -/
def sampleEnv (code len : Int) (body : GoString) : Env where
  StatusText := fun c =>
    if c = 404 then "Not Found".toList
    else if c = 500 then "Internal Server Error".toList else []
  Quote := fun s => '"' :: s ++ ['"']
  Exchange := fun _ _ =>
    .ok [RR.other,
      RR.A ⟨"mirrors.fedoraproject.org.".toList, 60, "IN".toList, "192.0.2.1".toList⟩]
  NewRequest := fun url =>
    if url.any isControl then some "net/url: invalid control character in URL".toList else none
  Do := fun _ => .ok ⟨code, len, [("Server".toList, "nginx".toList)], body, none⟩
  Open := fun _ => none
  TempFile := .ok "123456789".toList
  Rename := none

/-- The empty store. -/
def emptyStore : Store := fun _ => none

/-- A sample `GET` request with no header fields. -/
def sampleRequest (host uri path : GoString) (form : List (GoString × GoString)) : Request :=
  ⟨"GET".toList, host, uri, path, [], .ok form⟩

/-- A path carries one of the four routed prefixes. -/
def Routed (p : GoString) : Prop :=
  "/archlinux/".toList <+: p ∨ "/centos/".toList <+: p ∨ "/fedora/".toList <+: p ∨
    "/fedora-epel/".toList <+: p

/-- The sample environment with an upstream that cannot be reached. -/
def downEnv : Env :=
  { sampleEnv 200 0 [] with Do := fun _ => .error "connection refused".toList }

/-- The output buffer of `path.Clean` on a rooted path, reversed, when the
elements written so far are `es`, the last one first. -/
def cleanBuf : List (List Char) → List Char
  | [] => ['/']
  | [e] => e.reverse ++ ['/']
  | e :: e' :: rest => e.reverse ++ '/' :: cleanBuf (e' :: rest)

/-- A proper path element: not empty, free of `/`, and not `..`. -/
def ProperElement (e : List Char) : Prop :=
  e ≠ [] ∧ '/' ∉ e ∧ e ≠ ['.', '.']

/-! ## Facts about the string primitives -/

theorem HasSuffix_iff (s x : GoString) : HasSuffix s x = true ↔ x <:+ s := by
  unfold HasSuffix
  simp only [Bool.and_eq_true, decide_eq_true_eq, beq_iff_eq]
  constructor
  · rintro ⟨_, h⟩
    exact ⟨s.take (s.length - x.length), by
      have e := List.take_append_drop (s.length - x.length) s
      rw [h] at e
      exact e⟩
  · rintro ⟨t, rfl⟩
    simp

theorem HasPrefix_iff (s x : GoString) : HasPrefix s x = true ↔ x <+: s := by
  unfold HasPrefix
  simp only [Bool.and_eq_true, decide_eq_true_eq, beq_iff_eq]
  constructor
  · rintro ⟨_, h⟩
    exact ⟨s.drop x.length, by
      have e := List.take_append_drop x.length s
      rw [h] at e
      exact e⟩
  · rintro ⟨t, rfl⟩
    simp

theorem indexFrom_ge (x : GoString) : ∀ (s : GoString) (i : Nat), indexFrom x s i = -1 ∨ (i : Int) ≤ indexFrom x s i
  | [], i => by
    unfold indexFrom; split <;> simp
  | c :: t, i => by
    unfold indexFrom; split
    · simp
    · rcases indexFrom_ge x t (i + 1) with h | h
      · exact Or.inl h
      · right; omega

/-- The search finds `x` at offset `a.length` when that is its first occurrence. -/
theorem indexFrom_first (x : GoString) : ∀ (a b : GoString) (i : Nat),
    (∀ a' b', a ++ x ++ b = a' ++ x ++ b' → a.length ≤ a'.length) →
    indexFrom x (a ++ x ++ b) i = (i + a.length : Nat)
  | [], b, i, _ => by
    cases hx : x with
    | nil =>
      cases b with
      | nil => simp [indexFrom]
      | cons c t => simp [indexFrom, HasPrefix]
    | cons c t =>
      have : HasPrefix (c :: (t ++ b)) (c :: t) = true := (HasPrefix_iff _ _).2 ⟨b, rfl⟩
      simp [indexFrom, this]
  | c :: a, b, i, h => by
    have hn : ¬ HasPrefix (c :: a ++ x ++ b) x = true := by
      intro hp
      obtain ⟨r, hr⟩ := (HasPrefix_iff _ _).1 hp
      have := h [] r (by simpa using hr.symm)
      simp at this
    have ih := indexFrom_first x a b (i + 1) (by
      intro a' b' e
      have := h (c :: a') b' (by simp [List.append_assoc] at *; exact e)
      simpa using this)
    have e : c :: a ++ x ++ b = c :: (a ++ x ++ b) := by simp
    rw [e, indexFrom]
    rw [e] at hn
    simp only [hn, if_false, Bool.false_eq_true]
    rw [ih]; simp only [List.length_cons]; congr 1; omega

theorem indexFrom_neg (x : GoString) : ∀ (s : GoString) (i : Nat), indexFrom x s i = -1 ↔ ¬ x <:+: s
  | [], i => by
    unfold indexFrom
    by_cases hx : x = []
    · subst hx; simp
    · simp [hx]
  | c :: t, i => by
    unfold indexFrom
    by_cases hp : HasPrefix (c :: t) x = true
    · simp only [hp, if_true]
      have := (HasPrefix_iff _ _).1 hp
      constructor
      · intro h; omega
      · intro h; exact absurd this.isInfix h
    · simp only [hp, if_false, Bool.false_eq_true]
      rw [indexFrom_neg x t (i + 1)]
      have hp' : ¬ x <+: c :: t := fun h => hp ((HasPrefix_iff _ _).2 h)
      rw [List.infix_cons_iff]
      tauto

theorem Index_eq_neg_one_iff (s x : GoString) : Index s x = -1 ↔ ¬ x <:+: s :=
  indexFrom_neg x s 0

theorem Contains_iff (s x : GoString) : Contains s x = true ↔ x <:+: s := by
  unfold Contains
  rw [decide_eq_true_eq]
  constructor
  · intro h
    by_contra hc
    have := (Index_eq_neg_one_iff s x).2 hc
    omega
  · intro h
    rcases indexFrom_ge x s 0 with h1 | h1
    · exact absurd h ((Index_eq_neg_one_iff s x).1 h1)
    · unfold Index; omega

theorem Index_first (x a b : GoString)
    (h : ∀ a' b', a ++ x ++ b = a' ++ x ++ b' → a.length ≤ a'.length) :
    Index (a ++ x ++ b) x = (a.length : Nat) := by
  unfold Index
  rw [indexFrom_first x a b 0 h]
  simp

/-! ## The cacheability predicate -/

theorem should_cache_iff (p : GoString) :
    should_cache p = true ↔
      (".pkg.tar.xz".toList <:+ p ∨ ".rpm".toList <:+ p ∨
        ("/repodata/".toList <:+: p ∧
          (".gz".toList <:+ p ∨ ".bz2".toList <:+ p ∨ ".xz".toList <:+ p))) := by
  unfold should_cache
  simp only [← HasSuffix_iff, ← Contains_iff]
  cases HasSuffix p ".pkg.tar.xz".toList <;> cases HasSuffix p ".rpm".toList <;>
    cases Contains p "/repodata/".toList <;> cases HasSuffix p ".gz".toList <;>
    cases HasSuffix p ".bz2".toList <;> cases HasSuffix p ".xz".toList <;> simp

/-- C1: `should_cache p` holds exactly when `p` ends with `.pkg.tar.xz`, or ends
with `.rpm`, or contains `/repodata/` and ends with `.gz`, `.bz2` or `.xz`; the
five paths of the table classify as stated (three cached, two streamed). -/
theorem should_cache_spec :
    (∀ p : GoString, should_cache p = true ↔
      (".pkg.tar.xz".toList <:+ p ∨ ".rpm".toList <:+ p ∨
        ("/repodata/".toList <:+: p ∧
          (".gz".toList <:+ p ∨ ".bz2".toList <:+ p ∨ ".xz".toList <:+ p)))) ∧
    should_cache "/archlinux/foo.pkg.tar.xz".toList = true ∧
    should_cache "/centos/7/os/x86_64/Packages/bash.rpm".toList = true ∧
    should_cache "/fedora/releases/repodata/repomd.xml.gz".toList = true ∧
    should_cache "/centos/7/os/x86_64/repodata/repomd.xml".toList = false ∧
    should_cache "/archlinux/lastsync".toList = false :=
  ⟨should_cache_iff, by decide, by decide, by decide, by decide, by decide⟩

/-! ## The Fedora mirror-list handler -/

theorem fedoraSplice_unchanged (s repo arch host : GoString)
    (h : repo ≠ "epel-7".toList ∨ ¬ resourcesOpen <:+: s ∨ ¬ resourcesClose <:+: s) :
    fedoraSplice s repo arch host = s := by
  unfold fedoraSplice
  simp only [ne_eq, Index_eq_neg_one_iff, not_not]
  rw [if_neg]
  tauto

/-- What the body rewrite does on a document whose first delimiters stand at
the ends of `old`: the opening delimiter and `old` go, the closing one stays. -/
theorem fedoraSplice_first (a old b arch host : GoString)
    (h1 : ∀ a' b', a ++ resourcesOpen ++ (old ++ resourcesClose ++ b) = a' ++ resourcesOpen ++ b' →
      a.length ≤ a'.length)
    (h2 : ∀ a' b', (a ++ resourcesOpen ++ old) ++ resourcesClose ++ b = a' ++ resourcesClose ++ b' →
      (a ++ resourcesOpen ++ old).length ≤ a'.length) :
    fedoraSplice (a ++ resourcesOpen ++ old ++ resourcesClose ++ b) "epel-7".toList arch host =
      a ++ fedoraUrl host arch ++ resourcesClose ++ b := by
  have e1 : a ++ resourcesOpen ++ old ++ resourcesClose ++ b =
      a ++ resourcesOpen ++ (old ++ resourcesClose ++ b) := by simp
  have i1 : Index (a ++ resourcesOpen ++ old ++ resourcesClose ++ b) resourcesOpen = (a.length : Nat) := by
    rw [e1]; exact Index_first _ _ _ h1
  have i2 : Index (a ++ resourcesOpen ++ old ++ resourcesClose ++ b) resourcesClose =
      ((a ++ resourcesOpen ++ old).length : Nat) := Index_first _ _ _ h2
  unfold fedoraSplice
  simp only [i1, i2]
  rw [if_pos (by refine ⟨by omega, by omega, trivial⟩)]
  simp only [Int.toNat_ofNat]
  have t1 : List.take a.length (a ++ resourcesOpen ++ old ++ resourcesClose ++ b) = a := by
    simp [List.append_assoc]
  have t2 : List.drop (a ++ resourcesOpen ++ old).length (a ++ resourcesOpen ++ old ++ resourcesClose ++ b) =
      resourcesClose ++ b := by
    rw [List.append_assoc (a ++ resourcesOpen ++ old), List.drop_left]
  rw [t1, t2]
  simp [List.append_assoc]

theorem firstA_tab : ∀ (answer : List RR) (text : GoString),
    firstA answer = some text → '\t' ∈ text
  | [], _, h => by simp [firstA] at h
  | RR.A a :: _, text, h => by
    simp only [firstA, Option.some.injEq] at h
    rw [← h]
    simp [ARecord.String]
  | RR.other :: rest, text, h => firstA_tab rest text (by simpa [firstA] using h)

/-- What `resolve` returns is the text of a whole `A` record, tabs included,
not an address. -/
theorem resolve_tab (env : Env) (host dns_server addr : GoString)
    (h : resolve env host dns_server = .ok addr) : '\t' ∈ addr := by
  unfold resolve at h
  split at h
  · exact absurd h (by simp)
  · split at h
    · rename_i a ha
      have e : a = addr := by simpa using h
      rw [← e]
      exact firstA_tab _ _ ha
    · exact absurd h (by simp)

/-- The Fedora handler never gets as far as its fetch: the URL it builds from
the result of `resolve` holds a tab, `http.NewRequest` refuses it, and the
request ends in an error that is not an `HTTPError`, answered with status 500. -/
theorem ServeHTTP_fedora_fails (cfg : Config) (env : Env) (fs : Store) (r : Request)
    (hlaw : RejectsControl env) (hH : r.Host = "mirrors.fedoraproject.org".toList) :
    (∃ e, (ServeHTTP cfg env fs r).err = some (GoError.other e) ∧
        (ServeHTTP cfg env fs r).w.body = e ++ ['\n']) ∧
      (ServeHTTP cfg env fs r).w.status = some 500 ∧
      (ServeHTTP cfg env fs r).requests = [] ∧
      (ServeHTTP cfg env fs r).store = fs := by
  have key : ∃ e, fedora_mirrorlist env fs ResponseWriter.new r cfg.dns_server cfg.host =
      ⟨ResponseWriter.new, fs, [],
        (fedora_mirrorlist env fs ResponseWriter.new r cfg.dns_server cfg.host).dns,
        some (GoError.other e)⟩ := by
    unfold fedora_mirrorlist
    cases hF : r.Form with
    | error e => exact ⟨e, rfl⟩
    | ok form =>
      simp only []
      cases hR : resolve env "mirrors.fedoraproject.org".toList cfg.dns_server with
      | error e => exact ⟨e, rfl⟩
      | ok addr =>
        simp only []
        have htab : '\t' ∈ "http://".toList ++ addr ++ r.RequestURI :=
          List.mem_append_left _ (List.mem_append_right _ (resolve_tab _ _ _ _ hR))
        have hsome := hlaw _ ⟨'\t', htab, by decide⟩
        obtain ⟨e, he⟩ := Option.isSome_iff_exists.1 hsome
        exact ⟨e, by simp only [he]⟩
  obtain ⟨e, he⟩ := key
  unfold ServeHTTP
  simp only [hH, if_true]
  rw [he]
  refine ⟨⟨e, rfl, ?_⟩, ?_, rfl, rfl⟩
  · simp [httpError, ResponseWriter.finish, ResponseWriter.WriteHeader, ResponseWriter.Write,
      ResponseWriter.SetHeader, ResponseWriter.new]
  · simp [httpError, ResponseWriter.finish, ResponseWriter.WriteHeader, ResponseWriter.Write,
      ResponseWriter.SetHeader, ResponseWriter.new]

theorem sampleEnv_RejectsControl (code len : Int) (body : GoString) :
    RejectsControl (sampleEnv code len body) := by
  intro url h
  obtain ⟨c, hc, hic⟩ := h
  have hany : url.any isControl = true := List.any_eq_true.2 ⟨c, hc, hic⟩
  simp only [sampleEnv, hany, if_true, Option.isSome_some]

/-- C9: a request for the Fedora mirror list ends in a returned error and the
client receives status 500, whatever upstream would answer, so for every
upstream status other than 200 as well. The error is not an `HTTPError`: the
handler's URL holds the text of the whole `A` record, `http.NewRequest` refuses
it, and no upstream request is issued. -/
theorem fedora_answers_500 (cfg : Config) (env : Env) (fs : Store) (r : Request)
    (hlaw : RejectsControl env) (hH : r.Host = "mirrors.fedoraproject.org".toList) :
    (∃ e, (ServeHTTP cfg env fs r).err = some (GoError.other e)) ∧
      (ServeHTTP cfg env fs r).w.status = some 500 ∧
      (ServeHTTP cfg env fs r).requests = [] := by
  obtain ⟨⟨e, he, _⟩, hs, hr, _⟩ := ServeHTTP_fedora_fails cfg env fs r hlaw hH
  exact ⟨⟨e, he⟩, hs, hr⟩

/-- C9 with an upstream that would answer 404: the client receives 500. -/
theorem fedora_answers_500_witness :
    (ServeHTTP sampleConfig (sampleEnv 404 0 []) emptyStore
        (sampleRequest "mirrors.fedoraproject.org".toList "/?repo=epel-7&arch=x86_64".toList
          "/".toList [("repo".toList, "epel-7".toList), ("arch".toList, "x86_64".toList)])).w.status =
      some 500 :=
  (fedora_answers_500 sampleConfig (sampleEnv 404 0 []) emptyStore _
    (sampleEnv_RejectsControl 404 0 []) rfl).2.1

/-- C8 on the code: for `repo=fedora-26` and an upstream that would answer 200
with the body `a<resources maxconnections="1">OLD</resources>b`, the client
receives status 500 and an error text, not that body, and upstream is not
asked; what `resolve` returned is the record text
`mirrors.fedoraproject.org.`, tab, `60`, tab, `IN`, tab, `A`, tab, `192.0.2.1`. -/
theorem fedora_other_repo_fails :
    (ServeHTTP sampleConfig
        (sampleEnv 200 49 "a<resources maxconnections=\"1\">OLD</resources>b".toList) emptyStore
        (sampleRequest "mirrors.fedoraproject.org".toList "/?repo=fedora-26&arch=x86_64".toList
          "/".toList [("repo".toList, "fedora-26".toList), ("arch".toList, "x86_64".toList)])).w.status =
      some 500 ∧
    (ServeHTTP sampleConfig
        (sampleEnv 200 49 "a<resources maxconnections=\"1\">OLD</resources>b".toList) emptyStore
        (sampleRequest "mirrors.fedoraproject.org".toList "/?repo=fedora-26&arch=x86_64".toList
          "/".toList [("repo".toList, "fedora-26".toList), ("arch".toList, "x86_64".toList)])).requests =
      [] ∧
    (ServeHTTP sampleConfig
        (sampleEnv 200 49 "a<resources maxconnections=\"1\">OLD</resources>b".toList) emptyStore
        (sampleRequest "mirrors.fedoraproject.org".toList "/?repo=fedora-26&arch=x86_64".toList
          "/".toList [("repo".toList, "fedora-26".toList), ("arch".toList, "x86_64".toList)])).w.body ≠
      "a<resources maxconnections=\"1\">OLD</resources>b".toList ∧
    resolve (sampleEnv 200 49 "a<resources maxconnections=\"1\">OLD</resources>b".toList)
        "mirrors.fedoraproject.org".toList "8.8.8.8".toList =
      .ok "mirrors.fedoraproject.org.\t60\tIN\tA\t192.0.2.1".toList := by
  refine ⟨by decide, by decide, by decide, rfl⟩

/-- C2 on the code: for `repo=epel-7`, arch `x86_64`, proxy host `p` and an
upstream that would answer 200 with the body
`a<resources maxconnections="1">OLD</resources>b`, the client receives status
500 and an error text and upstream is not asked; and the rewrite of main.go
lines 274-283, applied to that body, keeps the closing tag `</resources>`
after the `url` element. Neither is the body `a`, the `url` element, `b`. -/
theorem fedora_epel_request_fails :
    (ServeHTTP sampleConfig
        (sampleEnv 200 49 "a<resources maxconnections=\"1\">OLD</resources>b".toList) emptyStore
        (sampleRequest "mirrors.fedoraproject.org".toList "/?repo=epel-7&arch=x86_64".toList
          "/".toList [("repo".toList, "epel-7".toList), ("arch".toList, "x86_64".toList)])).w.status =
      some 500 ∧
    (ServeHTTP sampleConfig
        (sampleEnv 200 49 "a<resources maxconnections=\"1\">OLD</resources>b".toList) emptyStore
        (sampleRequest "mirrors.fedoraproject.org".toList "/?repo=epel-7&arch=x86_64".toList
          "/".toList [("repo".toList, "epel-7".toList), ("arch".toList, "x86_64".toList)])).requests =
      [] ∧
    (ServeHTTP sampleConfig
        (sampleEnv 200 49 "a<resources maxconnections=\"1\">OLD</resources>b".toList) emptyStore
        (sampleRequest "mirrors.fedoraproject.org".toList "/?repo=epel-7&arch=x86_64".toList
          "/".toList [("repo".toList, "epel-7".toList), ("arch".toList, "x86_64".toList)])).w.body ≠
      ("a".toList ++
        ("<url protocol=\"http\" type=\"http\" location=\"US\" preference=\"100\">" ++
          "http://p/fedora-epel/7/x86_64/repodata/repomd.xml</url>").toList ++ "b".toList) ∧
    fedoraSplice "a<resources maxconnections=\"1\">OLD</resources>b".toList "epel-7".toList
        "x86_64".toList "p".toList =
      ("a".toList ++
        ("<url protocol=\"http\" type=\"http\" location=\"US\" preference=\"100\">" ++
          "http://p/fedora-epel/7/x86_64/repodata/repomd.xml</url>").toList ++
        "</resources>".toList ++ "b".toList) := by
  refine ⟨by decide, by decide, by decide, by decide⟩

/-! ## The CentOS mirror-list handler -/

/-- C3: for a parsed form the CentOS handler answers with `Content-Type:
text/plain`, status 200 and the body `http://<host>/centos/<r>/<repo>/<arch>/`,
where `<r>` is `7.2.1511` for release `7` and the release otherwise; it issues
no upstream request and no DNS question and leaves the store alone. -/
theorem centos_mirrorlist_spec (cfg : Config) (env : Env) (fs : Store) (r : Request)
    (form : List (GoString × GoString))
    (hH : r.Host = "mirrorlist.centos.org".toList) (hF : r.Form = .ok form) :
    (ServeHTTP cfg env fs r).w.body =
        "http://".toList ++ cfg.host ++ "/centos/".toList ++
          (if Values.Get form "release".toList = "7".toList then "7.2.1511".toList
            else Values.Get form "release".toList) ++
          "/".toList ++ Values.Get form "repo".toList ++ "/".toList ++
          Values.Get form "arch".toList ++ "/".toList ∧
      (ServeHTTP cfg env fs r).w.sent = [("Content-Type".toList, "text/plain".toList)] ∧
      (ServeHTTP cfg env fs r).w.status = some 200 ∧
      (ServeHTTP cfg env fs r).requests = [] ∧
      (ServeHTTP cfg env fs r).dns = [] ∧
      (ServeHTTP cfg env fs r).store = fs := by
  have hne : ¬ ("mirrorlist.centos.org".toList = "mirrors.fedoraproject.org".toList) := by decide
  simp only [ServeHTTP, centos_mirrorlist, hH, hF, hne, ResponseWriter.new,
    ResponseWriter.finish, ResponseWriter.WriteHeader, ResponseWriter.Write,
    ResponseWriter.SetHeader, if_true, if_false, and_self, List.nil_append, Header.Set,
    List.filter_nil, and_true]

/-- C3 at `release=7&repo=os&arch=x86_64` with proxy host `p`: the body is
`http://p/centos/7.2.1511/os/x86_64/`. -/
theorem centos_mirrorlist_spec_witness :
    (ServeHTTP sampleConfig (sampleEnv 200 0 []) emptyStore
        (sampleRequest "mirrorlist.centos.org".toList "/?release=7&repo=os&arch=x86_64".toList
          "/".toList [("release".toList, "7".toList), ("repo".toList, "os".toList),
            ("arch".toList, "x86_64".toList)])).w.body =
      "http://p/centos/7.2.1511/os/x86_64/".toList :=
  (centos_mirrorlist_spec sampleConfig (sampleEnv 200 0 []) emptyStore _
    [("release".toList, "7".toList), ("repo".toList, "os".toList),
      ("arch".toList, "x86_64".toList)] rfl rfl).1

/-! ## The store -/

theorem Store.remove_write (s : Store) (p b : GoString) (h : s p = none) :
    (s.write p b).remove p = s := by
  funext q
  unfold Store.remove Store.write
  by_cases hq : q = p
  · simp [hq, h]
  · simp [hq]

theorem Store.write_write (s : Store) (p a b : GoString) :
    (s.write p a).write p b = s.write p b := by
  funext q
  unfold Store.write
  by_cases hq : q = p <;> simp [hq]

theorem Store.rename_write_at (s : Store) (p q b : GoString) (h : p ≠ q) :
    (((s.write p b).rename p q).remove p) q = some b := by
  have e : (s.write p b) p = some b := by simp [Store.write]
  simp [Store.rename, e, Store.remove, Store.write, h, Ne.symm h]

/-! ## The response writer -/

theorem foldl_AddHeader_status (hs : Header) (w : ResponseWriter) :
    (hs.foldl (fun acc kv => acc.AddHeader kv.1 kv.2) w).status = w.status := by
  induction hs generalizing w with
  | nil => rfl
  | cons kv t ih => rw [List.foldl_cons, ih]; rfl

theorem mem_Set_self (h : Header) (k v : GoString) : (k, v) ∈ h.Set k v := by
  simp [Header.Set]

theorem mem_Set_of_mem (h : Header) (k v k1 v1 : GoString) (hk : k1 ≠ k) (hm : (k1, v1) ∈ h) :
    (k1, v1) ∈ h.Set k v := by
  simp [Header.Set, hm, hk]

theorem finish_Copy_sent (w : ResponseWriter) (b : GoString) (h : w.status = none) :
    (w.Copy b).finish.sent = w.header ∧ (w.Copy b).finish.status = some 200 ∧
      (w.Copy b).finish.body = w.body ++ b := by
  unfold ResponseWriter.Copy
  by_cases hb : b = []
  · simp [hb, ResponseWriter.finish, ResponseWriter.WriteHeader, h]
  · simp [hb, ResponseWriter.finish, ResponseWriter.WriteHeader, ResponseWriter.Write, h]

theorem proxyHead_sent (resp : UpstreamResponse) :
    (proxyHead ResponseWriter.new resp).status = some resp.StatusCode ∧
      ("Server".toList, "remirror".toList) ∈ (proxyHead ResponseWriter.new resp).sent ∧
      ("Content-Length".toList, Itoa resp.ContentLength) ∈
        (proxyHead ResponseWriter.new resp).sent := by
  unfold proxyHead
  generalize hw : List.foldl (fun acc kv => ResponseWriter.AddHeader acc kv.1 kv.2)
    ResponseWriter.new resp.Header = w1
  have hst : w1.status = none := by
    rw [← hw, foldl_AddHeader_status]; rfl
  simp only [ResponseWriter.WriteHeader, ResponseWriter.SetHeader, hst]
  refine ⟨trivial, ?_, mem_Set_self _ _ _⟩
  exact mem_Set_of_mem _ _ _ _ _ (by decide) (mem_Set_self _ _ _)

theorem finish_Copy_of_status (w : ResponseWriter) (b : GoString) (c : Int)
    (h : w.status = some c) :
    (w.Copy b).finish.sent = w.sent ∧ (w.Copy b).finish.status = some c := by
  unfold ResponseWriter.Copy
  by_cases hb : b = []
  · simp [hb, ResponseWriter.finish, ResponseWriter.WriteHeader, h]
  · simp [hb, ResponseWriter.finish, ResponseWriter.WriteHeader, ResponseWriter.Write, h]

/-! ## The proxy pipeline -/

theorem tmpPath_ne_nil (data suffix : GoString) : tmpPath data suffix ≠ [] := by
  unfold tmpPath
  intro h
  have := congrArg List.length h
  simp at this

theorem proxyCopy_fields (env : Env) (fs : Store) (w : ResponseWriter) (resp : UpstreamResponse)
    (req : OutRequest) (lp tp : GoString) :
    (proxyCopy env fs w resp req lp tp).w = (proxyHead w resp).Copy resp.Body ∧
      (proxyCopy env fs w resp req lp tp).requests = [req] ∧
      (proxyCopy env fs w resp req lp tp).dns = [] ∧
      (proxyCopy env fs w resp req lp tp).err = none := by
  unfold proxyCopy
  cases resp.BodyErr <;> cases env.Rename <;> simp only [] <;>
    (try split_ifs) <;> simp

theorem proxyCopy_store_nil (env : Env) (fs : Store) (w : ResponseWriter)
    (resp : UpstreamResponse) (req : OutRequest) (lp : GoString) :
    (proxyCopy env fs w resp req lp []).store = fs := by
  unfold proxyCopy
  simp only [ne_eq, not_true_eq_false, if_false]
  cases resp.BodyErr
  · simp only []; split_ifs <;> rfl
  · rfl

theorem proxyCopy_store_tmp (env : Env) (fs : Store) (w : ResponseWriter)
    (resp : UpstreamResponse) (req : OutRequest) (lp tp : GoString) (ht : tp ≠ [])
    (hf : fs tp = none) :
    (proxyCopy env (fs.write tp []) w resp req lp tp).store = fs ∨
      (resp.BodyErr = none ∧ (resp.Body.length : Int) = resp.ContentLength ∧ env.Rename = none ∧
        (proxyCopy env (fs.write tp []) w resp req lp tp).store =
          ((fs.write tp resp.Body).rename tp lp).remove tp) := by
  unfold proxyCopy
  simp only [ht, ne_eq, not_false_eq_true, if_true, Store.write_write]
  cases hb : resp.BodyErr with
  | some e => left; simp only []; exact Store.remove_write _ _ _ hf
  | none =>
    simp only []
    by_cases hn : (resp.Body.length : Int) = resp.ContentLength
    · simp only [hn, not_true_eq_false, if_false]
      cases hr : env.Rename with
      | some e => left; simp only []; exact Store.remove_write _ _ _ hf
      | none => right; exact ⟨by trivial, by trivial, by trivial, rfl⟩
    · left
      simp only [hn, not_false_eq_true, if_true]
      exact Store.remove_write _ _ _ hf

theorem guessUpstream_routed (p : GoString) (h : Routed p) :
    guessUpstream p = "https://mirrors.xmission.com".toList := by
  unfold guessUpstream
  simp only [Routed, ← HasPrefix_iff] at h
  split_ifs <;> first | rfl | (exfalso; tauto)

theorem guessUpstream_unrouted (p : GoString) (h : ¬ Routed p) :
    guessUpstream p = [] := by
  unfold guessUpstream
  simp only [Routed, ← HasPrefix_iff] at h
  split_ifs <;> first | rfl | (exfalso; tauto)

theorem ServeHTTP_proxied (cfg : Config) (env : Env) (fs : Store) (r : Request)
    (hp : Proxied r) :
    (ServeHTTP cfg env fs r).store = (proxy env fs ResponseWriter.new r cfg.data).store ∧
      (ServeHTTP cfg env fs r).requests = (proxy env fs ResponseWriter.new r cfg.data).requests ∧
      (ServeHTTP cfg env fs r).dns = (proxy env fs ResponseWriter.new r cfg.data).dns ∧
      (ServeHTTP cfg env fs r).err = (proxy env fs ResponseWriter.new r cfg.data).err ∧
      (ServeHTTP cfg env fs r).w =
        (match (proxy env fs ResponseWriter.new r cfg.data).err with
          | some (.http code) =>
            httpError (proxy env fs ResponseWriter.new r cfg.data).w (HTTPError.Error env code)
              (HTTPError.Code code)
          | some (.other msg) => httpError (proxy env fs ResponseWriter.new r cfg.data).w msg 500
          | none => (proxy env fs ResponseWriter.new r cfg.data).w).finish := by
  obtain ⟨h1, h2⟩ := hp
  simp only [ServeHTTP, h1, h2, if_false, and_self]

theorem proxy_unrouted (env : Env) (fs : Store) (w : ResponseWriter) (r : Request)
    (data : GoString) (h : guessUpstream r.Path = []) :
    proxy env fs w r data = ⟨w, fs, [], [], some (.http 404)⟩ := by
  unfold proxy
  simp only [h, if_true]

theorem proxy_hit (env : Env) (fs : Store) (w : ResponseWriter) (r : Request)
    (data content : GoString) (h : guessUpstream r.Path ≠ []) (hc : should_cache r.Path = true)
    (hl : fs (data ++ Clean r.Path) = some content) (ho : env.Open (data ++ Clean r.Path) = none) :
    proxy env fs w r data =
      ⟨((w.SetHeader "Content-Length".toList (Itoa content.length)).SetHeader "Server".toList
          "remirror".toList).Copy content, fs, [], [], none⟩ := by
  unfold proxy
  simp only [h, if_false, hc, localPath, if_true, hl, ho]

/-- The outcomes of the proxy pipeline for a routed request: a published
file is served, or an error is returned before anything is written, or an
upstream response is passed on. -/
theorem proxy_cases (env : Env) (fs : Store) (r : Request) (data : GoString)
    (h : guessUpstream r.Path ≠ []) (o : Outcome)
    (ho : proxy env fs ResponseWriter.new r data = o) :
    (∃ content, should_cache r.Path = true ∧ fs (data ++ Clean r.Path) = some content ∧
        o = ⟨((ResponseWriter.new.SetHeader "Content-Length".toList
          (Itoa content.length)).SetHeader "Server".toList "remirror".toList).Copy content,
          fs, [], [], none⟩) ∨
      (∃ e, o.w = ResponseWriter.new ∧ o.store = fs ∧
        ((o.requests = [] ∧
            ((should_cache r.Path = true ∧ (fs (data ++ Clean r.Path)).isSome) ∨
              (env.NewRequest (guessUpstream r.Path ++ r.RequestURI)).isSome)) ∨
          o.requests = [upstreamRequest r]) ∧
        o.dns = [] ∧ o.err = some (.other e)) ∨
      (∃ resp, env.Do (upstreamRequest r) = .ok resp ∧ o.requests = [upstreamRequest r] ∧
        o.dns = [] ∧ o.err = none ∧ o.w = (proxyHead ResponseWriter.new resp).Copy resp.Body ∧
        (o.store = fs ∨
          (should_cache r.Path = true ∧ resp.StatusCode = 200 ∧ resp.BodyErr = none ∧
            (resp.Body.length : Int) = resp.ContentLength))) := by
  unfold proxy at ho
  simp only [h, if_false] at ho
  split at ho
  · -- os.Stat succeeded
    rename_i content hc
    have hsc : should_cache r.Path = true := by
      by_contra hn
      simp [hn] at hc
    simp only [hsc, if_true, localPath] at hc ho
    split at ho
    · right; left
      subst ho
      exact ⟨_, rfl, rfl, Or.inl ⟨rfl, Or.inl ⟨hsc, by simp [hc]⟩⟩, rfl, rfl⟩
    · left
      subst ho
      exact ⟨content, hsc, hc, rfl⟩
  · split at ho
    · rename_i e hnr
      right; left
      subst ho
      exact ⟨_, rfl, rfl, Or.inl ⟨rfl, Or.inr (by simp [hnr])⟩, rfl, rfl⟩
    · split at ho
      · right; left
        subst ho
        exact ⟨_, rfl, rfl, Or.inr rfl, rfl, rfl⟩
      · rename_i resp hd
        split at ho
        · rename_i hcond
          obtain ⟨hs200, hlp⟩ := hcond
          have hsc : should_cache r.Path = true := by
            by_contra hn
            simp [localPath, hn] at hlp
          split at ho
          · right; left
            subst ho
            exact ⟨_, rfl, rfl, Or.inr rfl, rfl, rfl⟩
          · rename_i suffix hsuf
            split at ho
            · right; left
              subst ho
              exact ⟨_, rfl, rfl, Or.inr rfl, rfl, rfl⟩
            · rename_i hfresh
              have hnone : fs (tmpPath data suffix) = none := by
                cases hx : fs (tmpPath data suffix) with
                | none => rfl
                | some b => simp [hx] at hfresh
              right; right
              subst ho
              obtain ⟨h1, h2, h3, h4⟩ := proxyCopy_fields env
                (fs.write (tmpPath data suffix) []) ResponseWriter.new resp
                (upstreamRequest r) (localPath data r.Path) (tmpPath data suffix)
              refine ⟨resp, hd, h2, h3, h4, h1, ?_⟩
              rcases proxyCopy_store_tmp env fs ResponseWriter.new resp (upstreamRequest r)
                (localPath data r.Path) (tmpPath data suffix) (tmpPath_ne_nil _ _) hnone with
                hst | ⟨hb, hn, _, _⟩
              · exact Or.inl hst
              · exact Or.inr ⟨hsc, hs200, hb, hn⟩
        · right; right
          subst ho
          obtain ⟨h1, h2, h3, h4⟩ := proxyCopy_fields env fs ResponseWriter.new resp
            (upstreamRequest r) (localPath data r.Path) []
          exact ⟨resp, hd, h2, h3, h4, h1, Or.inl (proxyCopy_store_nil _ _ _ _ _ _)⟩

theorem fedora_mirrorlist_store (env : Env) (fs : Store) (w : ResponseWriter) (r : Request)
    (d h : GoString) : (fedora_mirrorlist env fs w r d h).store = fs := by
  unfold fedora_mirrorlist
  split
  · rfl
  · simp only []
    split
    · rfl
    · split
      · rfl
      · split
        · rfl
        · split
          · rfl
          · split <;> rfl

theorem centos_mirrorlist_store (fs : Store) (w : ResponseWriter) (r : Request)
    (d h : GoString) : (centos_mirrorlist fs w r d h).store = fs := by
  unfold centos_mirrorlist
  split <;> rfl

/-! ## The store is changed by complete downloads only -/

/-- C5: unless the request goes through the proxy pipeline, its path is
cacheable, upstream answers 200 and the copy ends without error after exactly
the declared `Content-Length` bytes, the store after the request is the store
before it: nothing is published and no temporary file remains. -/
theorem store_unchanged_unless_complete (cfg : Config) (env : Env) (fs : Store) (r : Request)
    (h : ¬ (Proxied r ∧ should_cache r.Path = true ∧
      ∃ resp, env.Do (upstreamRequest r) = .ok resp ∧ resp.StatusCode = 200 ∧
        resp.BodyErr = none ∧ (resp.Body.length : Int) = resp.ContentLength)) :
    (ServeHTTP cfg env fs r).store = fs := by
  by_cases hp : Proxied r
  · rw [(ServeHTTP_proxied cfg env fs r hp).1]
    by_cases hu : guessUpstream r.Path = []
    · rw [proxy_unrouted env fs _ r _ hu]
    · rcases proxy_cases env fs r cfg.data hu _ rfl with
        ⟨c, _, _, ho⟩ | ⟨e, _, hs, _⟩ | ⟨resp, hd, _, _, _, _, hs | ⟨h1, h2, h3, h4⟩⟩
      · rw [ho]
      · exact hs
      · exact hs
      · exact absurd ⟨hp, h1, resp, hd, h2, h3, h4⟩ h
  · unfold ServeHTTP
    simp only []
    unfold Proxied at hp
    split_ifs with h1 h2
    · exact fedora_mirrorlist_store _ _ _ _ _ _
    · exact centos_mirrorlist_store _ _ _ _ _
    · exact absurd ⟨h1, h2⟩ hp

/-- C5 on a short read and on a path that is not cacheable: upstream declares
four bytes for a cacheable path and the body ends after two; and upstream
answers `/centos/7/os/x86_64/repodata/repomd.xml` in full with status 200. The
store is unchanged both times. -/
theorem store_unchanged_unless_complete_witness :
    (ServeHTTP sampleConfig (sampleEnv 200 4 "ab".toList) emptyStore
      (sampleRequest "mirror.lan".toList "/archlinux/core/foo.pkg.tar.xz".toList
        "/archlinux/core/foo.pkg.tar.xz".toList [])).store = emptyStore ∧
    (ServeHTTP sampleConfig (sampleEnv 200 2 "ab".toList) emptyStore
      (sampleRequest "mirror.lan".toList "/centos/7/os/x86_64/repodata/repomd.xml".toList
        "/centos/7/os/x86_64/repodata/repomd.xml".toList [])).store = emptyStore :=
  ⟨store_unchanged_unless_complete sampleConfig (sampleEnv 200 4 "ab".toList) emptyStore _ (by
      rintro ⟨_, _, resp, hd, _, _, hl⟩
      have e : resp = ⟨200, 4, [("Server".toList, "nginx".toList)], "ab".toList, none⟩ :=
        (Except.ok.inj hd).symm
      subst e
      exact absurd hl (by decide)),
    store_unchanged_unless_complete sampleConfig (sampleEnv 200 2 "ab".toList) emptyStore _ (by
      rintro ⟨_, hc, _⟩
      exact absurd hc (by decide))⟩

/-! ## Dispatch -/

/-- C7: for a request that is not for a mirror-list host, a path with one of
the four prefixes is routed to the upstream base, the only upstream request the
handler can issue is a `GET` of the base followed by the request URI verbatim,
it is issued whenever no published file is served and the URL is accepted, and
the handler never answers it with the error `HTTPError(404)`; any other path
gives `HTTPError(404)`, status 404, no upstream request, no DNS question and an
untouched store. -/
theorem dispatch_spec (cfg : Config) (env : Env) (fs : Store) (r : Request) (hp : Proxied r) :
    (Routed r.Path →
      guessUpstream r.Path = "https://mirrors.xmission.com".toList ∧
      ((ServeHTTP cfg env fs r).requests = [] ∨
        (ServeHTTP cfg env fs r).requests =
          [⟨"GET".toList, "https://mirrors.xmission.com".toList ++ r.RequestURI,
            r.Header.filter (fun kv => kv.1 ≠ "Host".toList)⟩]) ∧
      ((should_cache r.Path = false ∨ fs (cfg.data ++ Clean r.Path) = none) →
        env.NewRequest ("https://mirrors.xmission.com".toList ++ r.RequestURI) = none →
        (ServeHTTP cfg env fs r).requests =
          [⟨"GET".toList, "https://mirrors.xmission.com".toList ++ r.RequestURI,
            r.Header.filter (fun kv => kv.1 ≠ "Host".toList)⟩]) ∧
      (ServeHTTP cfg env fs r).err ≠ some (GoError.http 404)) ∧
    (¬ Routed r.Path →
      (ServeHTTP cfg env fs r).err = some (GoError.http 404) ∧
      (ServeHTTP cfg env fs r).w.status = some 404 ∧
      (ServeHTTP cfg env fs r).requests = [] ∧
      (ServeHTTP cfg env fs r).dns = [] ∧
      (ServeHTTP cfg env fs r).store = fs) := by
  obtain ⟨hst, hrq, hdns, herr, hw⟩ := ServeHTTP_proxied cfg env fs r hp
  constructor
  · intro hr
    have hg := guessUpstream_routed r.Path hr
    have hne : guessUpstream r.Path ≠ [] := by rw [hg]; decide
    have hreq : upstreamRequest r =
        ⟨"GET".toList, "https://mirrors.xmission.com".toList ++ r.RequestURI,
          r.Header.filter (fun kv => kv.1 ≠ "Host".toList)⟩ := by
      unfold upstreamRequest; rw [hg]
    rw [hrq, herr, ← hreq]
    refine ⟨hg, ?_, ?_, ?_⟩
    · rcases proxy_cases env fs r cfg.data hne _ rfl with
        ⟨c, _, _, ho⟩ | ⟨e, _, _, ⟨h1, _⟩ | h1, _⟩ | ⟨resp, _, h1, _⟩
      · rw [ho]; exact Or.inl rfl
      · exact Or.inl h1
      · exact Or.inr h1
      · exact Or.inr h1
    · intro hmiss hnew
      rw [← hg] at hnew
      rcases proxy_cases env fs r cfg.data hne _ rfl with
        ⟨c, h1, h2, _⟩ | ⟨e, _, _, ⟨_, ⟨h1, h2⟩ | h2⟩ | h1, _⟩ | ⟨resp, _, h1, _⟩
      · rcases hmiss with hm | hm
        · rw [h1] at hm; exact absurd hm (by decide)
        · rw [h2] at hm; exact absurd hm (by simp)
      · rcases hmiss with hm | hm
        · rw [h1] at hm; exact absurd hm (by decide)
        · rw [hm] at h2; exact absurd h2 (by simp)
      · rw [hnew] at h2; exact absurd h2 (by simp)
      · exact h1
      · exact h1
    · rcases proxy_cases env fs r cfg.data hne _ rfl with
        ⟨c, _, _, ho⟩ | ⟨e, _, _, _, _, h1⟩ | ⟨resp, _, _, _, h1, _⟩
      · rw [ho]; simp
      · rw [h1]; simp
      · rw [h1]; simp
  · intro hr
    have hg := guessUpstream_unrouted r.Path hr
    rw [hst, hrq, hdns, herr, hw, proxy_unrouted env fs _ r _ hg]
    simp [httpError, ResponseWriter.finish, ResponseWriter.WriteHeader, ResponseWriter.Write,
      ResponseWriter.SetHeader, ResponseWriter.new, HTTPError.Code]

/-- C7 at `/debian/x`: the answer is 404 and nothing is requested upstream. -/
theorem dispatch_spec_witness :
    (ServeHTTP sampleConfig (sampleEnv 200 0 []) emptyStore
        (sampleRequest "mirror.lan".toList "/debian/x".toList "/debian/x".toList [])).w.status =
        some 404 ∧
      (ServeHTTP sampleConfig (sampleEnv 200 0 []) emptyStore
        (sampleRequest "mirror.lan".toList "/debian/x".toList "/debian/x".toList [])).requests =
        [] :=
  have h := (dispatch_spec sampleConfig (sampleEnv 200 0 []) emptyStore
    (sampleRequest "mirror.lan".toList "/debian/x".toList "/debian/x".toList [])
    ⟨by decide, by decide⟩).2 (by
      unfold Routed
      simp only [← HasPrefix_iff]
      decide)
  ⟨h.2.1, h.2.2.1⟩

/-! ## The `Server` header -/

/-- C10 as the code has it: every answer the proxy pipeline gives without an
error, a published file served or an upstream response passed on, is sent with
the header field `Server: remirror`. -/
theorem proxy_server_header (cfg : Config) (env : Env) (fs : Store) (r : Request)
    (hp : Proxied r) (he : (ServeHTTP cfg env fs r).err = none) :
    ("Server".toList, "remirror".toList) ∈ (ServeHTTP cfg env fs r).w.sent := by
  obtain ⟨_, _, _, herr, hw⟩ := ServeHTTP_proxied cfg env fs r hp
  rw [herr] at he
  rw [hw, he]
  simp only []
  by_cases hu : guessUpstream r.Path = []
  · rw [proxy_unrouted env fs _ r _ hu] at he
    exact absurd he (by simp)
  · rcases proxy_cases env fs r cfg.data hu _ rfl with
      ⟨c, _, _, ho⟩ | ⟨e, _, _, _, _, h1⟩ | ⟨resp, _, _, _, _, h1, _⟩
    · rw [ho]
      simp only []
      rw [(finish_Copy_sent _ c rfl).1]
      exact mem_Set_self _ _ _
    · rw [h1] at he; exact absurd he (by simp)
    · rw [h1, (finish_Copy_of_status _ _ _ (proxyHead_sent resp).1).1]
      exact (proxyHead_sent resp).2.1

/-- C10 on a proxied upstream answer whose own `Server` field is `nginx`. -/
theorem proxy_server_header_witness :
    ("Server".toList, "remirror".toList) ∈
      (ServeHTTP sampleConfig (sampleEnv 200 2 "ab".toList) emptyStore
        (sampleRequest "mirror.lan".toList "/archlinux/lastsync".toList
          "/archlinux/lastsync".toList [])).w.sent :=
  proxy_server_header sampleConfig (sampleEnv 200 2 "ab".toList) emptyStore _
    ⟨by decide, by decide⟩ (by decide)

/-- C10 fails as stated: the CentOS mirror list, the answer to a Fedora
mirror-list request, the 404 for an unrouted path and the 500 for an
unreachable upstream are all sent without a `Server: remirror` field. -/
theorem server_header_missing :
    ("Server".toList, "remirror".toList) ∉
      (ServeHTTP sampleConfig (sampleEnv 200 0 []) emptyStore
        (sampleRequest "mirrorlist.centos.org".toList "/?release=7&repo=os&arch=x86_64".toList
          "/".toList [("release".toList, "7".toList), ("repo".toList, "os".toList),
            ("arch".toList, "x86_64".toList)])).w.sent ∧
    ("Server".toList, "remirror".toList) ∉
      (ServeHTTP sampleConfig (sampleEnv 200 2 "ab".toList) emptyStore
        (sampleRequest "mirrors.fedoraproject.org".toList "/?repo=epel-7&arch=x86_64".toList
          "/".toList [("repo".toList, "epel-7".toList), ("arch".toList, "x86_64".toList)])).w.sent ∧
    ((ServeHTTP sampleConfig (sampleEnv 200 0 []) emptyStore
        (sampleRequest "mirror.lan".toList "/debian/x".toList "/debian/x".toList [])).w.status =
        some 404 ∧
      ("Server".toList, "remirror".toList) ∉
        (ServeHTTP sampleConfig (sampleEnv 200 0 []) emptyStore
          (sampleRequest "mirror.lan".toList "/debian/x".toList "/debian/x".toList [])).w.sent) ∧
    ((ServeHTTP sampleConfig downEnv emptyStore
        (sampleRequest "mirror.lan".toList "/archlinux/lastsync".toList
          "/archlinux/lastsync".toList [])).w.status = some 500 ∧
      ("Server".toList, "remirror".toList) ∉
        (ServeHTTP sampleConfig downEnv emptyStore
          (sampleRequest "mirror.lan".toList "/archlinux/lastsync".toList
            "/archlinux/lastsync".toList [])).w.sent) := by
  refine ⟨by decide, by decide, ⟨by decide, by decide⟩, ⟨by decide, by decide⟩⟩

/-! ## `path.Clean` on rooted paths -/

theorem cleanBuf_cons (e : List Char) (es : List (List Char)) :
    cleanBuf (e :: es) = e.reverse ++ (if es = [] then ['/'] else '/' :: cleanBuf es) := by
  cases es <;> simp [cleanBuf]

theorem cleanBuf_length (es : List (List Char)) (h : ∀ e ∈ es, ProperElement e) :
    (cleanBuf es).length = 1 ↔ es = [] := by
  cases es with
  | nil => simp [cleanBuf]
  | cons e t =>
    have he : e ≠ [] := (h e (List.mem_cons_self _ _)).1
    have hl : 0 < e.length := List.length_pos.2 he
    rw [cleanBuf_cons]
    constructor
    · intro hh
      have hh2 := congrArg id hh
      simp only [List.length_append, List.length_reverse, id] at hh2
      split_ifs at hh2 <;> simp only [List.length_cons, List.length_nil] at hh2 <;> omega
    · intro hh
      exact absurd hh (by simp)

theorem cleanBacktrack_append (e tl : List Char) (h : '/' ∉ e) (c : Char) (ht : 1 < tl.length) :
    cleanBacktrack 1 (e ++ c :: tl) = cleanBacktrack 1 (c :: tl) := by
  induction e with
  | nil => rfl
  | cons x t ih =>
    have hx : x ≠ '/' := fun hh => h (hh ▸ List.mem_cons_self _ _)
    have ht' : '/' ∉ t := fun hh => h (List.mem_cons_of_mem _ hh)
    rw [List.cons_append, cleanBacktrack, if_pos ⟨by simp; omega, hx⟩, ih ht']

theorem cleanBacktrack_root (e : List Char) (h : '/' ∉ e) (he : e ≠ []) :
    cleanBacktrack 1 (e ++ ['/']) = ['/'] := by
  induction e with
  | nil => exact absurd rfl he
  | cons x t ih =>
    have hx : x ≠ '/' := fun hh => h (hh ▸ List.mem_cons_self _ _)
    have ht' : '/' ∉ t := fun hh => h (List.mem_cons_of_mem _ hh)
    rw [List.cons_append, cleanBacktrack]
    by_cases htn : t = []
    · subst htn; simp
    · rw [if_pos ⟨by
        have := List.length_pos.2 htn
        simp; omega, hx⟩, ih ht' htn]

theorem cleanBacktrack_cleanBuf (e : List Char) (es : List (List Char))
    (h : ∀ x ∈ e :: es, ProperElement x) :
    cleanBacktrack 1 (cleanBuf (e :: es)) = cleanBuf es := by
  have he := h e (List.mem_cons_self _ _)
  have hr : '/' ∉ e.reverse := fun hh => he.2.1 (List.mem_reverse.1 hh)
  have hrn : e.reverse ≠ [] := fun hh => he.1 (List.reverse_eq_nil_iff.1 hh)
  cases es with
  | nil => exact cleanBacktrack_root _ hr hrn
  | cons e' rest =>
    have hlen : 1 < (cleanBuf (e' :: rest)).length := by
      have h1 := cleanBuf_length (e' :: rest) (fun x hx => h x (List.mem_cons_of_mem _ hx))
      have h2 : 0 < (cleanBuf (e' :: rest)).length := by
        rw [cleanBuf_cons]; split_ifs <;> simp
      have h3 : (cleanBuf (e' :: rest)).length ≠ 1 := fun hh => by simpa using h1.1 hh
      omega
    show cleanBacktrack 1 (e.reverse ++ '/' :: cleanBuf (e' :: rest)) = _
    rw [cleanBacktrack_append _ _ hr _ hlen, cleanBacktrack, if_neg (by simp)]

theorem cleanLoop_nil (rooted : Bool) (fuel : Nat) (out : List Char) (dotdot : Nat) :
    cleanLoop rooted fuel [] out dotdot = some out := by
  cases fuel <;> rfl

theorem suffix_of_cons (ext t : List Char) (c : Char) (h : ext <:+ c :: t)
    (hne : ext ≠ c :: t) : ext <:+ t := by
  rcases List.suffix_cons_iff.1 h with h1 | h1
  · exact absurd h1 hne
  · exact h1

theorem suffix_past_slash (ext : List Char) (hx : '/' ∉ ext) :
    ∀ (a b : List Char), ext <:+ a ++ '/' :: b → ext <:+ '/' :: b
  | [], _, h => h
  | x :: a, b, h => by
    apply suffix_past_slash ext hx a b
    apply suffix_of_cons ext _ x h
    intro he
    apply hx
    rw [he]
    simp

theorem head?_slash (t : List Char) (c : Char) (h : t.head? = some c) : t = c :: t.tail := by
  cases t with
  | nil => simp at h
  | cons x r => simp at h; simp [h]

theorem takeWhile_proper (c : Char) (t : List Char) (h1 : c ≠ '/')
    (h2 : ¬ (c = '.' ∧ (t = [] ∨ t.head? = some '/')))
    (h3 : ¬ (c = '.' ∧ t.head? = some '.' ∧ (t.tail = [] ∨ t.tail.head? = some '/'))) :
    ProperElement ((c :: t).takeWhile (fun x => x ≠ '/')) := by
  have e : (c :: t).takeWhile (fun x => x ≠ '/') = c :: t.takeWhile (fun x => x ≠ '/') := by
    simp [List.takeWhile_cons, h1]
  refine ⟨by rw [e]; simp, ?_, ?_⟩
  · intro hm
    have := List.mem_takeWhile_imp hm
    simp at this
  · rw [e]
    intro he
    injection he with hc ht
    apply h3
    refine ⟨hc, ?_⟩
    cases t with
    | nil => simp at ht
    | cons x r =>
      by_cases hx : x = '/'
      · simp [List.takeWhile_cons, hx] at ht
      · simp only [List.takeWhile_cons, hx, ne_eq, not_false_eq_true, decide_True, if_true] at ht
        injection ht with hx1 hr
        refine ⟨by simp [hx1], ?_⟩
        cases r with
        | nil => left; rfl
        | cons y s =>
          right
          by_cases hy : y = '/'
          · simp [hy]
          · simp [List.takeWhile_cons, hy] at hr

theorem ext_ne_short (ext pre tt : List Char) (hx1 : '/' ∉ ext) (hx2 : 3 ≤ ext.length)
    (h : tt = [] ∨ tt.head? = some '/') (hp : pre.length ≤ 2) : ext ≠ pre ++ tt := by
  intro he
  rcases h with h | h
  · have hl := congrArg List.length he
    rw [h, List.append_nil] at hl
    omega
  · apply hx1
    rw [he, head?_slash tt _ h]
    simp

theorem not_suffix_nil (ext : List Char) (hx2 : 3 ≤ ext.length) : ¬ ext <:+ [] := by
  intro h
  have := List.IsSuffix.length_le h
  rw [List.length_nil] at this
  omega

theorem dropWhile_head (p : Char → Bool) :
    ∀ (l : List Char) (y : Char) (r : List Char), l.dropWhile p = y :: r → p y = false
  | [], _, _, h => by simp at h
  | x :: l, y, r, h => by
    by_cases hx : p x = true
    · rw [List.dropWhile_cons, if_pos hx] at h
      exact dropWhile_head p l y r h
    · rw [List.dropWhile_cons, if_neg hx] at h
      injection h with h1 _
      rw [← h1]
      simpa using hx

/-- The loop of `path.Clean` never runs out of fuel when given one unit per input byte. -/
theorem cleanLoop_isSome (rooted : Bool) :
    ∀ (fuel : Nat) (rest out : List Char) (dotdot : Nat), rest.length ≤ fuel →
      (cleanLoop rooted fuel rest out dotdot).isSome = true := by
  intro fuel
  induction fuel with
  | zero =>
    intro rest out dotdot hl
    have hr : rest = [] := List.length_eq_zero.1 (by omega)
    subst hr
    rfl
  | succ fuel ih =>
    intro rest out dotdot hl
    cases rest with
    | nil => rfl
    | cons c t =>
      have hlt : t.length ≤ fuel := by simpa using hl
      have hlt2 : t.tail.length ≤ fuel := by
        have := List.length_tail t
        omega
      have hd : c ≠ '/' → ((c :: t).dropWhile (fun x => x ≠ '/')).length ≤ fuel := by
        intro h1
        have e : (c :: t).dropWhile (fun x => x ≠ '/') = t.dropWhile (fun x => x ≠ '/') := by
          simp [List.dropWhile_cons, h1]
        rw [e]
        exact le_trans (List.IsSuffix.length_le (List.dropWhile_suffix _)) hlt
      rw [cleanLoop]
      by_cases h1 : c = '/'
      · rw [if_pos h1]; exact ih _ _ _ hlt
      · rw [if_neg h1]
        by_cases h2 : c = '.' ∧ (t = [] ∨ t.head? = some '/')
        · rw [if_pos h2]; exact ih _ _ _ hlt
        · rw [if_neg h2]
          by_cases h3 : c = '.' ∧ t.head? = some '.' ∧ (t.tail = [] ∨ t.tail.head? = some '/')
          · rw [if_pos h3]
            split_ifs <;> exact ih _ _ _ hlt2
          · rw [if_neg h3]
            exact ih _ _ _ (hd h1)

/-- The routine `path.Clean` always completes its loop: the result is the buffer the loop leaves. -/
theorem Clean_total (path : GoString) (h : path ≠ []) :
    ∃ out, cleanLoop (path.head? == some '/') path.length
        (if (path.head? == some '/') = true then path.tail else path)
        (if (path.head? == some '/') = true then ['/'] else [])
        (if (path.head? == some '/') = true then 1 else 0) = some out ∧
      Clean path = if out.length = 0 then ['.'] else out.reverse := by
  have hl : (if (path.head? == some '/') = true then path.tail else path).length ≤ path.length := by
    split_ifs
    · have := List.length_tail path
      omega
    · exact le_refl _
  have hs := cleanLoop_isSome (path.head? == some '/') path.length _
    (if (path.head? == some '/') = true then ['/'] else [])
    (if (path.head? == some '/') = true then 1 else 0) hl
  obtain ⟨out, ho⟩ := Option.isSome_iff_exists.1 hs
  refine ⟨out, ho, ?_⟩
  unfold Clean
  rw [if_neg h]
  simp only [ho]

/-- The loop of `path.Clean` on a rooted path: it ends within its fuel, its
buffer is always the root followed by proper elements, and an extension that
ends the input ends the last element written. -/
theorem cleanLoop_rooted (ext : List Char) (hx1 : '/' ∉ ext) (hx2 : 3 ≤ ext.length) :
    ∀ (fuel : Nat) (rest : List Char) (es : List (List Char)),
      (∀ e ∈ es, ProperElement e) → rest.length ≤ fuel →
      ∃ es', (∀ e ∈ es', ProperElement e) ∧
        cleanLoop true fuel rest (cleanBuf es) 1 = some (cleanBuf es') ∧
        (ext <:+ rest → ∃ e tl, es' = e :: tl ∧ ext <:+ e) := by
  intro fuel
  induction fuel with
  | zero =>
    intro rest es hes hl
    have hr : rest = [] := List.length_eq_zero.1 (by omega)
    subst hr
    exact ⟨es, hes, cleanLoop_nil _ _ _ _, fun h => absurd h (not_suffix_nil _ hx2)⟩
  | succ fuel ih =>
    intro rest es hes hl
    cases rest with
    | nil => exact ⟨es, hes, cleanLoop_nil _ _ _ _, fun h => absurd h (not_suffix_nil _ hx2)⟩
    | cons c t =>
      have hlt : t.length ≤ fuel := by simpa using hl
      rw [cleanLoop]
      by_cases h1 : c = '/'
      · rw [if_pos h1]
        obtain ⟨es', h', heq, hsuf⟩ := ih t es hes hlt
        refine ⟨es', h', heq, fun hs => hsuf (suffix_of_cons _ _ _ hs ?_)⟩
        intro he; apply hx1; rw [he, h1]; simp
      · rw [if_neg h1]
        by_cases h2 : c = '.' ∧ (t = [] ∨ t.head? = some '/')
        · rw [if_pos h2]
          obtain ⟨es', h', heq, hsuf⟩ := ih t es hes hlt
          exact ⟨es', h', heq, fun hs => hsuf (suffix_of_cons _ _ _ hs
            (ext_ne_short ext [c] t hx1 hx2 h2.2 (by simp)))⟩
        · rw [if_neg h2]
          by_cases h3 : c = '.' ∧ t.head? = some '.' ∧ (t.tail = [] ∨ t.tail.head? = some '/')
          · rw [if_pos h3]
            have ht : t = '.' :: t.tail := head?_slash t _ h3.2.1
            have hlt2 : t.tail.length ≤ fuel := by
              have := List.length_tail t
              omega
            have hsufx : ext <:+ c :: t → ext <:+ t.tail := by
              intro hs
              rw [ht] at hs
              have s1 := suffix_of_cons _ _ _ hs
                (ext_ne_short ext [c, '.'] t.tail hx1 hx2 h3.2.2 (by simp))
              exact suffix_of_cons _ _ _ s1
                (ext_ne_short ext ['.'] t.tail hx1 hx2 h3.2.2 (by simp))
            cases es with
            | nil =>
              rw [if_neg (by simp [cleanBuf]), if_neg (by simp)]
              obtain ⟨es', h', heq, hsuf⟩ := ih t.tail [] hes hlt2
              exact ⟨es', h', heq, fun hs => hsuf (hsufx hs)⟩
            | cons e es0 =>
              have hlen : 1 < (cleanBuf (e :: es0)).length := by
                have h1 := cleanBuf_length (e :: es0) hes
                have h2 : 0 < (cleanBuf (e :: es0)).length := by
                  rw [cleanBuf_cons]; split_ifs <;> simp
                have h3 : (cleanBuf (e :: es0)).length ≠ 1 := fun hh => by simpa using h1.1 hh
                omega
              rw [if_pos hlen, cleanBacktrack_cleanBuf e es0 hes]
              obtain ⟨es', h', heq, hsuf⟩ :=
                ih t.tail es0 (fun x hx => hes x (List.mem_cons_of_mem _ hx)) hlt2
              exact ⟨es', h', heq, fun hs => hsuf (hsufx hs)⟩
          · rw [if_neg h3]
            simp only [true_and, Bool.true_eq_false, false_and, or_false, ne_eq]
            have hprop := takeWhile_proper c t h1 h2 h3
            have hes1 : ∀ x ∈ (c :: t).takeWhile (fun x => x ≠ '/') :: es, ProperElement x := by
              intro x hx
              rcases List.mem_cons.1 hx with hx | hx
              · rw [hx]; exact hprop
              · exact hes x hx
            have hbuf : ((c :: t).takeWhile (fun x => x ≠ '/')).reverse ++
                (if ¬ (cleanBuf es).length = 1 then '/' :: cleanBuf es else cleanBuf es) =
                cleanBuf ((c :: t).takeWhile (fun x => x ≠ '/') :: es) := by
              rw [cleanBuf_cons]
              congr 1
              by_cases hnil : es = []
              · subst hnil; simp [cleanBuf]
              · have : (cleanBuf es).length ≠ 1 := fun hh => hnil ((cleanBuf_length es hes).1 hh)
                simp [this, hnil]
            rw [hbuf]
            have hsplit : (c :: t).takeWhile (fun x => x ≠ '/') ++
                (c :: t).dropWhile (fun x => x ≠ '/') = c :: t := List.takeWhile_append_dropWhile _ _
            have hdl : ((c :: t).dropWhile (fun x => x ≠ '/')).length ≤ fuel := by
              have e : (c :: t).dropWhile (fun x => x ≠ '/') = t.dropWhile (fun x => x ≠ '/') := by
                simp [List.dropWhile_cons, h1]
              rw [e]
              exact le_trans (List.IsSuffix.length_le (List.dropWhile_suffix _)) hlt
            cases hd : (c :: t).dropWhile (fun x => x ≠ '/') with
            | nil =>
              refine ⟨_, hes1, cleanLoop_nil _ _ _ _, fun hs => ⟨_, _, rfl, ?_⟩⟩
              rw [hd, List.append_nil] at hsplit
              rw [hsplit]; exact hs
            | cons y r =>
              rw [hd] at hdl hsplit
              have hy : y = '/' := by
                have := dropWhile_head _ _ _ _ hd
                simpa using this
              obtain ⟨es', h', heq, hsuf⟩ := ih (y :: r) _ hes1 hdl
              refine ⟨es', h', heq, fun hs => hsuf ?_⟩
              rw [← hsplit, hy] at hs
              rw [hy]
              exact suffix_past_slash ext hx1 _ _ hs

theorem intercalate_concat (sep : List Char) :
    ∀ (l : List (List Char)) (e : List Char), l ≠ [] →
      sep.intercalate (l ++ [e]) = sep.intercalate l ++ sep ++ e
  | [], _, h => absurd rfl h
  | [x], e, _ => by simp [List.intercalate, List.intersperse]
  | x :: y :: l, e, _ => by
    have ih := intercalate_concat sep (y :: l) e (by simp)
    simp only [List.intercalate] at ih ⊢
    simp only [List.cons_append, List.intersperse_cons_cons, List.flatten_cons] at ih ⊢
    rw [ih]
    simp [List.append_assoc]

theorem cleanBuf_reverse : ∀ es : List (List Char),
    (cleanBuf es).reverse = '/' :: ['/'].intercalate es.reverse
  | [] => by simp [cleanBuf, List.intercalate]
  | [e] => by simp [cleanBuf, List.intercalate]
  | e :: e' :: rest => by
    have ih := cleanBuf_reverse (e' :: rest)
    have hne : (e' :: rest).reverse ≠ [] := by simp
    rw [cleanBuf, List.reverse_append, List.reverse_cons (a := '/'), ih,
      List.reverse_reverse, List.reverse_cons (a := e), intercalate_concat _ _ _ hne]
    simp [List.append_assoc]

/-- The shape of `path.Clean` on a rooted path: a `/` followed by proper
elements joined by `/`; an extension that ends the path ends the result. -/
theorem Clean_rooted (ext t : List Char) (hx1 : '/' ∉ ext) (hx2 : 3 ≤ ext.length) :
    ∃ es : List (List Char), (∀ e ∈ es, ProperElement e) ∧
      Clean ('/' :: t) = '/' :: ['/'].intercalate es ∧ (ext <:+ t → ext <:+ Clean ('/' :: t)) := by
  obtain ⟨es', hes, heq, hsuf⟩ :=
    cleanLoop_rooted ext hx1 hx2 ('/' :: t).length t [] (by simp) (by simp)
  have hlen : (cleanBuf es').length ≠ 0 := by
    cases es' with
    | nil => simp [cleanBuf]
    | cons e tl => rw [cleanBuf_cons]; split_ifs <;> simp
  have hC : Clean ('/' :: t) = (cleanBuf es').reverse := by
    unfold Clean
    simp only [List.head?_cons, beq_self_eq_true, if_true, List.tail_cons]
    rw [if_neg (by simp)]
    have e0 : cleanBuf [] = ['/'] := rfl
    rw [← e0, heq]
    simp only [hlen, if_false]
  refine ⟨es'.reverse, fun e he => hes e (List.mem_reverse.1 he), ?_, fun hs => ?_⟩
  · rw [hC, cleanBuf_reverse]
  · obtain ⟨e, tl, he, hse⟩ := hsuf hs
    rw [hC, he, cleanBuf_cons, List.reverse_append, List.reverse_reverse]
    exact hse.trans (List.suffix_append _ _)

theorem Routed_rooted (p : GoString) (h : Routed p) : ∃ t, p = '/' :: t := by
  rcases h with h | h | h | h <;> obtain ⟨r, hr⟩ := h <;> exact ⟨_, hr.symm⟩

theorem splitOn_rooted (es : List (List Char)) (hes : ∀ e ∈ es, ProperElement e) :
    ['.', '.'] ∉ ('/' :: ['/'].intercalate es).splitOn '/' := by
  cases es with
  | nil => decide
  | cons e tl =>
    have e1 : '/' :: ['/'].intercalate (e :: tl) = ['/'].intercalate ([] :: e :: tl) := by
      simp [List.intercalate]
    have hx : ∀ l ∈ ([] : List Char) :: e :: tl, '/' ∉ l := by
      intro l hl
      rcases List.mem_cons.1 hl with h | h
      · rw [h]; exact List.not_mem_nil _
      · exact (hes l h).2.1
    rw [e1, List.splitOn_intercalate ([] :: e :: tl) '/' hx (by simp)]
    intro hm
    rcases List.mem_cons.1 hm with h | h
    · exact absurd h (by decide)
    · exact (hes _ h).2.2 rfl

theorem dot_mem_Clean (ext p : GoString) (h0 : '.' ∈ ext) (hx1 : '/' ∉ ext)
    (hx2 : 3 ≤ ext.length) (hs : ext <:+ p) (hr : Routed p) : '.' ∈ Clean p := by
  obtain ⟨t, ht⟩ := Routed_rooted p hr
  subst ht
  have hst : ext <:+ t := suffix_of_cons _ _ _ hs (by
    intro he; apply hx1; rw [he]; simp)
  obtain ⟨_, _, _, hsuf⟩ := Clean_rooted ext t hx1 hx2
  exact (hsuf hst).subset h0

/-- The temporary file is never the file to publish: the published name ends
in an extension, the temporary name in decimal digits. -/
theorem tmpPath_ne_local (data suffix p : GoString) (hr : Routed p) (hc : should_cache p = true)
    (hd : ∀ c ∈ suffix, c.isDigit = true) : tmpPath data suffix ≠ data ++ Clean p := by
  have hdot : '.' ∈ Clean p := by
    rcases (should_cache_iff p).1 hc with h | h | ⟨_, h | h | h⟩
    · exact dot_mem_Clean _ p (by decide) (by decide) (by decide) h hr
    · exact dot_mem_Clean _ p (by decide) (by decide) (by decide) h hr
    · exact dot_mem_Clean _ p (by decide) (by decide) (by decide) h hr
    · exact dot_mem_Clean _ p (by decide) (by decide) (by decide) h hr
    · exact dot_mem_Clean _ p (by decide) (by decide) (by decide) h hr
  intro he
  unfold tmpPath at he
  rw [List.append_assoc, List.append_assoc] at he
  have he2 := List.append_cancel_left he
  rw [← he2] at hdot
  rcases List.mem_append.1 hdot with h | h
  · exact absurd h (by decide)
  · rcases List.mem_append.1 h with h | h
    · exact absurd h (by decide)
    · exact absurd (hd _ h) (by decide)

/-! ## The cleaned path stays beneath the data root -/

/-- C6: for a path with one of the four routed prefixes, `path.Clean` gives a
path that begins with `/` and has no `..` segment, so the local path
`data ++ Clean p` is `data`, a `/`, and proper elements joined by `/`; for
`/archlinux/../../etc/passwd` the cleaned path is `/etc/passwd`, the request is
not cacheable and the answer does not depend on the store at all. -/
theorem clean_beneath_root (data p : GoString) (h : Routed p) :
    ['/'] <+: Clean p ∧
    ['.', '.'] ∉ (Clean p).splitOn '/' ∧
    (∃ es : List (List Char), (∀ e ∈ es, e ≠ [] ∧ '/' ∉ e ∧ e ≠ ['.', '.']) ∧
      data ++ Clean p = data ++ '/' :: ['/'].intercalate es) ∧
    (localPath data p = [] ∨ localPath data p = data ++ Clean p) ∧
    Clean "/archlinux/../../etc/passwd".toList = "/etc/passwd".toList ∧
    should_cache "/archlinux/../../etc/passwd".toList = false ∧
    (∀ (cfg : Config) (env : Env) (fs fs' : Store) (r : Request), Proxied r →
      r.Path = "/archlinux/../../etc/passwd".toList →
      (ServeHTTP cfg env fs r).w = (ServeHTTP cfg env fs' r).w) := by
  obtain ⟨t, ht⟩ := Routed_rooted p h
  obtain ⟨es, hes, hC, _⟩ := Clean_rooted ".rpm".toList t (by decide) (by decide)
  rw [← ht] at hC
  refine ⟨?_, ?_, ⟨es, hes, by rw [hC]⟩, ?_, by decide, by decide, ?_⟩
  · rw [hC]; exact ⟨_, rfl⟩
  · rw [hC]; exact splitOn_rooted es hes
  · unfold localPath
    split_ifs
    · exact Or.inr rfl
    · exact Or.inl rfl
  · intro cfg env fs fs' r hp hpath
    have hc : should_cache r.Path = false := by rw [hpath]; decide
    rw [(ServeHTTP_proxied cfg env fs r hp).2.2.2.2, (ServeHTTP_proxied cfg env fs' r hp).2.2.2.2]
    have key : (proxy env fs ResponseWriter.new r cfg.data).w =
          (proxy env fs' ResponseWriter.new r cfg.data).w ∧
        (proxy env fs ResponseWriter.new r cfg.data).err =
          (proxy env fs' ResponseWriter.new r cfg.data).err := by
      unfold proxy
      simp only [hc, localPath, Bool.false_eq_true, if_false, ne_eq, not_true_eq_false,
        and_false]
      split
      · exact ⟨rfl, rfl⟩
      · split
        · exact ⟨rfl, rfl⟩
        · split
          · exact ⟨rfl, rfl⟩
          · simp only [(proxyCopy_fields _ _ _ _ _ _ _).1, (proxyCopy_fields _ _ _ _ _ _ _).2.2.2,
              and_self]
    rw [key.1, key.2]

/-- C6 at `/archlinux/../../etc/passwd`: the cleaned path is rooted and has no `..` segment. -/
theorem clean_beneath_root_witness :
    ['/'] <+: Clean "/archlinux/../../etc/passwd".toList ∧
      ['.', '.'] ∉ (Clean "/archlinux/../../etc/passwd".toList).splitOn '/' :=
  have h := clean_beneath_root "/var/remirror".toList "/archlinux/../../etc/passwd".toList
    (Or.inl ⟨"../../etc/passwd".toList, by decide⟩)
  ⟨h.1, h.2.1⟩

/-! ## A complete download is published and served from the store -/

theorem proxyCopy_publish (env : Env) (fs : Store) (w : ResponseWriter)
    (resp : UpstreamResponse) (req : OutRequest) (lp tp : GoString) (ht : tp ≠ [])
    (hb : resp.BodyErr = none) (hn : (resp.Body.length : Int) = resp.ContentLength)
    (hr : env.Rename = none) :
    (proxyCopy env (fs.write tp []) w resp req lp tp).store =
      ((fs.write tp resp.Body).rename tp lp).remove tp := by
  unfold proxyCopy
  simp only [ht, ne_eq, not_false_eq_true, if_true, Store.write_write, hb, hn, not_true_eq_false,
    if_false, hr]

theorem proxy_publish (env : Env) (fs : Store) (r : Request) (data suffix : GoString)
    (resp : UpstreamResponse) (hr : Routed r.Path) (hc : should_cache r.Path = true)
    (habs : fs (data ++ Clean r.Path) = none)
    (hnew : env.NewRequest (guessUpstream r.Path ++ r.RequestURI) = none)
    (hdo : env.Do (upstreamRequest r) = .ok resp) (h200 : resp.StatusCode = 200)
    (hlen : (resp.Body.length : Int) = resp.ContentLength) (hbody : resp.BodyErr = none)
    (htmp : env.TempFile = .ok suffix) (hfresh : fs (tmpPath data suffix) = none)
    (hren : env.Rename = none) :
    (proxy env fs ResponseWriter.new r data).store =
      ((fs.write (tmpPath data suffix) resp.Body).rename (tmpPath data suffix)
        (data ++ Clean r.Path)).remove (tmpPath data suffix) := by
  have hg : guessUpstream r.Path ≠ [] := by
    rw [guessUpstream_routed r.Path hr]; decide
  have hlp : data ++ Clean r.Path ≠ [] := by
    obtain ⟨t, ht⟩ := Routed_rooted _ hr
    obtain ⟨es, _, hC, _⟩ := Clean_rooted ".rpm".toList t (by decide) (by decide)
    rw [ht, hC]
    simp
  unfold upstreamRequest at hdo
  unfold proxy
  simp only [hg, if_false, hc, if_true, localPath, habs, hnew, hdo, h200, hlp, ne_eq,
    not_false_eq_true, and_self, htmp, hfresh, Option.isSome_none, Bool.false_eq_true]
  exact proxyCopy_publish env fs _ resp _ _ _ (tmpPath_ne_nil _ _) hbody hlen hren

/-- C4: a cacheable, routed path is absent from the store; the first request
is answered by upstream with status 200, declared length `N` and a body of
exactly `N` bytes copied without error, and the temporary file (a fresh name
ending in decimal digits) and the rename succeed. Then the store holds the body
at the cleaned path, no temporary file is left, and a second request for the
same path is answered from the store: status 200, exactly those bytes,
`Content-Length: N` and `Server: remirror`, with no upstream request. -/
theorem cache_hit_after_fetch (cfg : Config) (env1 env2 : Env) (fs : Store)
    (r1 r2 : Request) (resp : UpstreamResponse) (suffix : GoString)
    (hp1 : Proxied r1) (hp2 : Proxied r2) (hurl : r2.Path = r1.Path)
    (hr : Routed r1.Path) (hc : should_cache r1.Path = true)
    (habs : fs (cfg.data ++ Clean r1.Path) = none)
    (hnew : env1.NewRequest (guessUpstream r1.Path ++ r1.RequestURI) = none)
    (hdo : env1.Do (upstreamRequest r1) = .ok resp) (h200 : resp.StatusCode = 200)
    (hlen : (resp.Body.length : Int) = resp.ContentLength) (hbody : resp.BodyErr = none)
    (htmp : env1.TempFile = .ok suffix) (hdig : ∀ c ∈ suffix, c.isDigit = true)
    (hfresh : fs (tmpPath cfg.data suffix) = none) (hren : env1.Rename = none)
    (hopen : env2.Open (cfg.data ++ Clean r1.Path) = none) :
    (ServeHTTP cfg env1 fs r1).store (cfg.data ++ Clean r1.Path) = some resp.Body ∧
    (ServeHTTP cfg env1 fs r1).store (tmpPath cfg.data suffix) = none ∧
    (ServeHTTP cfg env2 (ServeHTTP cfg env1 fs r1).store r2).w.body = resp.Body ∧
    (ServeHTTP cfg env2 (ServeHTTP cfg env1 fs r1).store r2).w.status = some 200 ∧
    (ServeHTTP cfg env2 (ServeHTTP cfg env1 fs r1).store r2).w.sent =
      [("Content-Length".toList, Itoa resp.ContentLength),
        ("Server".toList, "remirror".toList)] ∧
    (ServeHTTP cfg env2 (ServeHTTP cfg env1 fs r1).store r2).requests = [] ∧
    (ServeHTTP cfg env2 (ServeHTTP cfg env1 fs r1).store r2).err = none := by
  have hne := tmpPath_ne_local cfg.data suffix r1.Path hr hc hdig
  have hst : (ServeHTTP cfg env1 fs r1).store =
      ((fs.write (tmpPath cfg.data suffix) resp.Body).rename (tmpPath cfg.data suffix)
        (cfg.data ++ Clean r1.Path)).remove (tmpPath cfg.data suffix) := by
    rw [(ServeHTTP_proxied cfg env1 fs r1 hp1).1]
    exact proxy_publish env1 fs r1 cfg.data suffix resp hr hc habs hnew hdo h200 hlen hbody
      htmp hfresh hren
  have hpub : (ServeHTTP cfg env1 fs r1).store (cfg.data ++ Clean r1.Path) = some resp.Body := by
    rw [hst]; exact Store.rename_write_at fs _ _ _ hne
  have hg : guessUpstream r2.Path ≠ [] := by
    rw [hurl, guessUpstream_routed r1.Path hr]; decide
  have hhit := proxy_hit env2 (ServeHTTP cfg env1 fs r1).store ResponseWriter.new r2 cfg.data
    resp.Body hg (by rw [hurl]; exact hc) (by rw [hurl]; exact hpub) (by rw [hurl]; exact hopen)
  obtain ⟨_, hrq, _, herr, hw⟩ := ServeHTTP_proxied cfg env2 (ServeHTTP cfg env1 fs r1).store r2 hp2
  refine ⟨hpub, ?_, ?_, ?_, ?_, ?_, ?_⟩
  · rw [hst]; simp [Store.remove]
  · rw [hw, hhit]
    simp only []
    rw [(finish_Copy_sent _ _ rfl).2.2]
    rfl
  · rw [hw, hhit]
    simp only []
    exact (finish_Copy_sent _ _ rfl).2.1
  · rw [hw, hhit]
    simp only []
    rw [(finish_Copy_sent _ _ rfl).1, hlen]
    rfl
  · rw [hrq, hhit]
  · rw [herr, hhit]

/-- C4 on a four-byte package at `/archlinux/core/os/x86_64/foo-1-1-x86_64.pkg.tar.xz`: after
the first request the second is served from the store. -/
theorem cache_hit_after_fetch_witness :
    (ServeHTTP sampleConfig (sampleEnv 200 4 "abcd".toList)
        (ServeHTTP sampleConfig (sampleEnv 200 4 "abcd".toList) emptyStore
          (sampleRequest "mirror.lan".toList "/archlinux/core/os/x86_64/foo-1-1-x86_64.pkg.tar.xz".toList
            "/archlinux/core/os/x86_64/foo-1-1-x86_64.pkg.tar.xz".toList [])).store
        (sampleRequest "mirror.lan".toList "/archlinux/core/os/x86_64/foo-1-1-x86_64.pkg.tar.xz".toList
          "/archlinux/core/os/x86_64/foo-1-1-x86_64.pkg.tar.xz".toList [])).w.body = "abcd".toList ∧
      (ServeHTTP sampleConfig (sampleEnv 200 4 "abcd".toList)
        (ServeHTTP sampleConfig (sampleEnv 200 4 "abcd".toList) emptyStore
          (sampleRequest "mirror.lan".toList "/archlinux/core/os/x86_64/foo-1-1-x86_64.pkg.tar.xz".toList
            "/archlinux/core/os/x86_64/foo-1-1-x86_64.pkg.tar.xz".toList [])).store
        (sampleRequest "mirror.lan".toList "/archlinux/core/os/x86_64/foo-1-1-x86_64.pkg.tar.xz".toList
          "/archlinux/core/os/x86_64/foo-1-1-x86_64.pkg.tar.xz".toList [])).requests = [] :=
  have h := cache_hit_after_fetch sampleConfig (sampleEnv 200 4 "abcd".toList)
    (sampleEnv 200 4 "abcd".toList) emptyStore
    (sampleRequest "mirror.lan".toList "/archlinux/core/os/x86_64/foo-1-1-x86_64.pkg.tar.xz".toList
      "/archlinux/core/os/x86_64/foo-1-1-x86_64.pkg.tar.xz".toList [])
    (sampleRequest "mirror.lan".toList "/archlinux/core/os/x86_64/foo-1-1-x86_64.pkg.tar.xz".toList
      "/archlinux/core/os/x86_64/foo-1-1-x86_64.pkg.tar.xz".toList [])
    ⟨200, 4, [("Server".toList, "nginx".toList)], "abcd".toList, none⟩ "123456789".toList
    ⟨by decide, by decide⟩ ⟨by decide, by decide⟩ rfl
    (Or.inl ⟨"core/os/x86_64/foo-1-1-x86_64.pkg.tar.xz".toList, by decide⟩) (by decide) rfl
    (by decide) rfl rfl (by decide)
    rfl rfl (by decide) rfl rfl rfl
  ⟨h.2.2.1, h.2.2.2.2.2.1⟩

end Remirror
